import Mathlib

/-!
Shallow embedding of the chunker service (Rust) for verification.

Conventions used throughout this development:

* Rust `String` / `&str` values flowing through the chunkers are modelled as
  `List Char` (named `Str` below).  Where the Rust code measures *byte*
  lengths (`str::len`) we use `bytesLen`, the sum of UTF-8 sizes, so that
  byte-offset bookkeeping in the source is mirrored exactly.
* The process-wide tiktoken BPE (`TiktokenCounter` in
  `src/chunkers/base.rs`) is an external library; it is modelled as an
  explicit `TokenCounter` record carrying `encode` and `decode`, with
  `count` defined as `(encode s).length` exactly as in
  `TiktokenCounter::count_tokens`.  Chunkers take the counter as a
  parameter, mirroring the shared `lazy_static` counter.
* Fallible or panicking code paths return `Except PanicKind _`; an `error`
  models a Rust panic (or non-termination of a loop, reached only outside
  the argument ranges the service uses — those spots are noted inline).
* `Uuid` identities and `chrono` timestamps are external effects carrying
  no logic consulted by the verified properties; they are dropped from the
  record types.
-/

/-- Rust string contents, modelled as the list of Unicode scalar values. -/
abbrev Str : Type := List Char

/-- Shorthand turning a Lean string literal into the `Str` model. -/
def str (s : String) : Str := s.data

/-- Byte length of a string (`str::len` in Rust counts UTF-8 bytes). -/
def bytesLen (s : Str) : Nat := (s.map Char.utf8Size).sum

/-- Rust `char::is_whitespace`, approximated by Lean's `Char.isWhitespace`. -/
def isWs (c : Char) : Bool := c.isWhitespace

/-- Rust `str::trim`: drop whitespace from both ends. -/
def trimStr (s : Str) : Str :=
  ((s.dropWhile isWs).reverse.dropWhile isWs).reverse

/-- Rust `str::lines`: split on `'\n'`, dropping one trailing `'\r'` per line
and not yielding a final empty line for a trailing newline. -/
def rustLinesGo (cur : Str) : Str → List Str
  | [] => [cur.reverse]
  | c :: rest =>
      if c = '\n' then cur.reverse :: rustLinesGo [] rest
      else rustLinesGo (c :: cur) rest

/-- Strip one trailing carriage return, as `str::lines` does. -/
def stripCr (s : Str) : Str :=
  match s.reverse with
  | '\r' :: rest => rest.reverse
  | _ => s

/-- Rust `str::lines` over the char model. -/
def rustLines (s : Str) : List Str :=
  if s = [] then []
  else
    let segs := rustLinesGo [] s
    let segs := match segs.reverse with
      | [] :: rest => rest.reverse
      | _ => segs
    segs.map stripCr

/-- Rust `str::contains(pat)` for a string pattern: some substring matches. -/
def containsSub (s pat : Str) : Bool :=
  (List.range (s.length + 1)).any (fun i => pat.isPrefixOf (s.drop i))

/-- Rust `str::starts_with(pat)`. -/
def startsWithStr (s pat : Str) : Bool := pat.isPrefixOf s

/-- Rust `str::strip_prefix(pat)`. -/
def stripPrefixStr (s pat : Str) : Option Str :=
  if pat.isPrefixOf s then some (s.drop pat.length) else none

/-- Rust `str::split(sep)` for a nonempty string separator: leftmost,
non-overlapping.  The separator is passed as head and tail to force
nonemptiness; `fuel` is structural and, seeded with the text length, is
never exhausted (every step consumes at least one char of the text). -/
def splitOnListGo (s0 : Char) (sepTl : Str) : Nat → Str → Str → List Str
  | _, cur, [] => [cur.reverse]
  | 0, cur, c :: rest => [cur.reverse ++ (c :: rest)]
  | fuel + 1, cur, c :: rest =>
      if (s0 :: sepTl).isPrefixOf (c :: rest) then
        cur.reverse :: splitOnListGo s0 sepTl fuel [] (rest.drop sepTl.length)
      else
        splitOnListGo s0 sepTl fuel (c :: cur) rest

/-- Rust `str::split(sep)`.  For the (dead in this codebase) empty-separator
case `split_by_separator` returns each char as its own slice. -/
def splitOnList (s sep : Str) : List Str :=
  match sep with
  | [] => s.map (fun c => [c])
  | s0 :: sepTl => splitOnListGo s0 sepTl s.length [] s

/-- Model of the external BPE tokenizer capability (`tiktoken_rs::CoreBPE`).
`count` is `encode ∘ length` exactly as `TiktokenCounter::count_tokens`. -/
structure TokenCounter where
  encode : Str → List Nat
  decode : List Nat → Str

/-- TiktokenCounter::count_tokens: length of the ordinary encoding. -/
def TokenCounter.count (tc : TokenCounter) (s : Str) : Nat := (tc.encode s).length

/-- A concrete counter used in witnesses: one token (the code point) per
character.  It is additive over concatenation and decode-stable. -/
def charCounter : TokenCounter where
  encode s := s.map Char.toNat
  decode l := l.map Char.ofNat

/-- A counter is additive when encoding lengths add over concatenation. -/
def CounterAdditive (tc : TokenCounter) : Prop :=
  ∀ s t : Str, tc.count (s ++ t) = tc.count s + tc.count t

/-- A counter is decode-stable when re-encoding a decoded token list yields
exactly as many tokens. -/
def CounterDecodeStable (tc : TokenCounter) : Prop :=
  ∀ ts : List Nat, tc.count (tc.decode ts) = ts.length

theorem charCounter_additive : CounterAdditive charCounter := by
  intro s t
  simp [charCounter, TokenCounter.count]

theorem charCounter_decodeStable : CounterDecodeStable charCounter := by
  intro ts
  simp [charCounter, TokenCounter.count]

/-! ## Data model (src/types) -/

/-- src/types/source.rs `SourceKind`. -/
inductive SourceKind where
  | codeRepo | document | chat | ticketing | wiki | email | web | other
deriving DecidableEq, Repr

/-- src/types/source.rs `SourceItem`.  The `serde_json::Value` metadata is
modelled by the two fields the core ever reads from it
(`metadata["language"]`, `metadata["path"]`); `id`/`source_id` UUIDs and the
timestamp carry no consulted logic and are dropped. -/
structure SourceItem where
  source_kind : SourceKind
  content_type : Str
  content : Str
  metaLanguage : Option Str
  metaPath : Option Str
deriving DecidableEq, Repr

/-- SourceItem::extract_language. -/
def SourceItem.extract_language (item : SourceItem) : Option Str :=
  if startsWithStr item.content_type (str "text/code:") then
    stripPrefixStr item.content_type (str "text/code:")
  else
    item.metaLanguage

/-- SourceItem::extract_path. -/
def SourceItem.extract_path (item : SourceItem) : Option Str := item.metaPath

/-- src/types/config.rs `ChunkConfig`. -/
structure ChunkConfig where
  chunk_size : Nat
  chunk_overlap : Nat
  min_chars_per_sentence : Nat
  preserve_whitespace : Bool
  language : Option Str
deriving DecidableEq, Repr

/-- src/types/chunk.rs `ChunkMetadata` (the fields consulted by the claims;
`timestamp`, `thread_id`, `extra` parse external values and are dropped). -/
structure ChunkMetadata where
  content_type : Option Str := none
  language : Option Str := none
  path : Option Str := none
  sectionName : Option Str := none
  symbol_name : Option Str := none
  author : Option Str := none
  line_range : Option (Nat × Nat) := none
deriving DecidableEq, Repr

/-- src/types/chunk.rs `Chunk` (UUID identities and `created_at` dropped). -/
structure Chunk where
  content : Str
  token_count : Nat
  start_index : Nat
  end_index : Nat
  chunk_index : Nat
  metadata : ChunkMetadata := {}
deriving DecidableEq, Repr

/-- Kinds of abnormal behavior of embedded code: a Rust panic, or a loop the
source would never leave. -/
inductive PanicKind where
  | panic | diverge
deriving DecidableEq, Repr

/-- Result type of embedded fallible operations (`anyhow::Result`, with
`error` also covering panics/divergence of the modelled code path). -/
abbrev RResult (α : Type) : Type := Except PanicKind α

/-- Emitted ordinals are exactly `0, 1, …, n-1` in emission order. -/
def DenseIdx (l : List Chunk) : Prop :=
  l.map (fun c => c.chunk_index) = List.range l.length

/-- Density of ordinals for a chunker result: every `ok` value is dense. -/
def OkDense (r : RResult (List Chunk)) : Prop :=
  ∀ l, r = .ok l → DenseIdx l

/-- Every chunk in an `ok` result stores the counter's token count of its own
content. -/
def OkCounts (tc : TokenCounter) (r : RResult (List Chunk)) : Prop :=
  ∀ l, r = .ok l → ∀ c ∈ l, c.token_count = tc.count c.content

/-! ## TokenChunker (src/chunkers/token_chunker.rs) -/

/-- Step computed in `TokenChunker::chunk` lines 55-59: `chunk_size` when
`chunk_overlap >= chunk_size`, else `chunk_size - chunk_overlap`. -/
def tokenStep (cfg : ChunkConfig) : Nat :=
  if cfg.chunk_overlap ≥ cfg.chunk_size then cfg.chunk_size
  else cfg.chunk_size - cfg.chunk_overlap

/-- The `while start_token < tokens.len()` window loop of `TokenChunker::chunk`
(lines 61-96).  `fuel` only guards the `step = 0` case (`chunk_size = 0`),
where the Rust loop never terminates. -/
def tokenWindowsGo (tc : TokenCounter) (tokens : List Nat) (size step : Nat) :
    Nat → Nat → Nat → RResult (List Chunk)
  | _, _, 0 => .error .diverge
  | startTok, idx, fuel + 1 =>
      if startTok < tokens.length then
        let endTok := min (startTok + size) tokens.length
        let chunkTokens := (tokens.drop startTok).take (endTok - startTok)
        let chunkText := tc.decode chunkTokens
        let startChar := if idx = 0 then 0 else bytesLen (tc.decode (tokens.take startTok))
        let c : Chunk :=
          { content := chunkText
            token_count := chunkTokens.length
            start_index := startChar
            end_index := startChar + bytesLen chunkText
            chunk_index := idx }
        if endTok ≥ tokens.length then .ok [c]
        else
          match tokenWindowsGo tc tokens size step (startTok + step) (idx + 1) fuel with
          | .ok rest => .ok (c :: rest)
          | .error e => .error e
      else .ok []

/-- TokenChunker::chunk. -/
def tokenChunkerChunk (tc : TokenCounter) (item : SourceItem) (cfg : ChunkConfig) :
    RResult (List Chunk) :=
  if item.content = [] then .ok []
  else
    let tokens := tc.encode item.content
    if tokens = [] then .ok []
    else tokenWindowsGo tc tokens cfg.chunk_size (tokenStep cfg) 0 0 (tokens.length + 1)

/-! ## SentenceChunker (src/chunkers/sentence_chunker.rs) -/

/-- Intermediate sentence representation (`Sentence` struct). -/
structure Sentence where
  text : Str
  start_index : Nat
  end_index : Nat
  token_count : Nat
deriving DecidableEq, Repr

/-- Default delimiters of `SentenceChunker::new`. -/
def sentDelims : List Char := ['.', '!', '?']

/-- Whether the next char (if any) is whitespace — `is_sentence_end` check. -/
def nextIsWsOrEnd : Str → Bool
  | [] => true
  | c :: _ => isWs c

/-- Consume the run of non-newline whitespace after a sentence end (the inner
`while j < chars.len()` loop); returns the consumed run and the rest. -/
def takeWsNotNl : Str → Str × Str
  | [] => ([], [])
  | c :: rest =>
      if isWs c ∧ c ≠ '\n' then
        let p := takeWsNotNl rest
        (c :: p.1, p.2)
      else ([], c :: rest)

theorem takeWsNotNl_snd_length (s : Str) : (takeWsNotNl s).2.length ≤ s.length := by
  induction s with
  | nil => simp [takeWsNotNl]
  | cons c rest ih =>
      by_cases h : isWs c ∧ c ≠ '\n' <;> simp [takeWsNotNl, h]
      omega

/-- SentenceChunker::split_sentences (lines 31-85). -/
def splitSentencesGo (tc : TokenCounter) : Nat → Str → Str → List Sentence
  | curStart, curText, [] =>
      if trimStr curText ≠ [] then
        [⟨curText, curStart, curStart + bytesLen curText, tc.count curText⟩]
      else []
  | curStart, curText, c :: rest =>
      let cur' := curText ++ [c]
      if sentDelims.contains c && nextIsWsOrEnd rest then
        let p := takeWsNotNl rest
        let text := cur' ++ p.1
        (if trimStr text ≠ [] then
          [⟨text, curStart, curStart + bytesLen text, tc.count text⟩]
         else []) ++
          splitSentencesGo tc (curStart + bytesLen text) [] p.2
      else
        splitSentencesGo tc curStart cur' rest
termination_by _ _ s => s.length
decreasing_by
  · have := takeWsNotNl_snd_length rest
    simp only [List.length_cons]
    omega
  · simp

/-- SentenceChunker::merge_short_sentences inner fold. -/
def mergeShortGo (tc : TokenCounter) (minChars : Nat) (curr : Sentence) :
    List Sentence → List Sentence
  | [] => [curr]
  | s :: rest =>
      if bytesLen curr.text < minChars then
        mergeShortGo tc minChars
          ⟨curr.text ++ s.text, curr.start_index, s.end_index,
            tc.count (curr.text ++ s.text)⟩ rest
      else curr :: mergeShortGo tc minChars s rest

/-- SentenceChunker::merge_short_sentences (lines 88-119). -/
def mergeShortSentences (tc : TokenCounter) (sents : List Sentence) (minChars : Nat) :
    List Sentence :=
  match sents with
  | [] => []
  | s :: rest => mergeShortGo tc minChars s rest

/-- Content of a chunk built from accumulated sentences. -/
def sentencesText (cur : List Sentence) : Str := (cur.map (fun s => s.text)).flatten

/-- Build one chunk as the packing loop does (`Chunk::new` call sites). -/
def sentenceMkChunk (cur : List Sentence) (curTok chunkStart idx : Nat) : Chunk :=
  { content := sentencesText cur
    token_count := curTok
    start_index := chunkStart
    end_index := ((cur.getLast?).map (fun s => s.end_index)).getD chunkStart
    chunk_index := idx }

/-- The sentence-packing loop of `SentenceChunker::chunk` (lines 162-211). -/
def sentencePackGo (cfg : ChunkConfig) : List Sentence → Nat → Nat → Nat →
    List Sentence → List Chunk
  | cur, curTok, chunkStart, idx, [] =>
      if cur ≠ [] then [sentenceMkChunk cur curTok chunkStart idx] else []
  | cur, curTok, chunkStart, idx, s :: rest =>
      if curTok + s.token_count > cfg.chunk_size ∧ cur ≠ [] then
        sentenceMkChunk cur curTok chunkStart idx ::
          sentencePackGo cfg [s] s.token_count s.start_index (idx + 1) rest
      else
        sentencePackGo cfg (cur ++ [s]) (curTok + s.token_count) chunkStart idx rest

/-- SentenceChunker::chunk. -/
def sentenceChunkerChunk (tc : TokenCounter) (item : SourceItem) (cfg : ChunkConfig) :
    RResult (List Chunk) :=
  if item.content = [] then .ok []
  else
    let sents := splitSentencesGo tc 0 [] item.content
    let sents := mergeShortSentences tc sents cfg.min_chars_per_sentence
    if sents = [] then .ok []
    else .ok (sentencePackGo cfg [] 0 0 0 sents)

/-! ## DocumentChunker (src/chunkers/document_chunker.rs) -/

/-- A document section (`Section` struct; the dead `start_byte` is dropped). -/
structure DocSection where
  heading : Option Str
  level : Nat
  content : Str
deriving DecidableEq, Repr

/-- Match of the heading regex `^(#{1,6})\s+(.+)$` against one line: the hash
run (1-6, with nothing but whitespace-then-title after it), the greedy
whitespace run, and a nonempty title.  When everything after the hashes is
whitespace of length ≥ 2, backtracking leaves the last whitespace char as the
title. -/
def headingMatch (line : Str) : Option (Nat × Str) :=
  let h := (line.takeWhile (fun c => c = '#')).length
  let rest := line.dropWhile (fun c => c = '#')
  if 1 ≤ h ∧ h ≤ 6 then
    match rest with
    | [] => none
    | r0 :: _ =>
        if isWs r0 then
          let t := rest.dropWhile isWs
          if t ≠ [] then some (h, t)
          else if rest.length ≥ 2 then
            match rest.getLast? with
            | some c => some (h, [c])
            | none => none
          else none
        else none
  else none

/-- The line loop of `DocumentChunker::split_by_headings` (lines 31-79).  The
code-fence toggle happens before the heading test, exactly as in the source. -/
def splitByHeadingsGo (cur : DocSection) (inCode : Bool) : List Str → List DocSection
  | [] => if trimStr cur.content ≠ [] then [cur] else []
  | line :: rest =>
      let inCode' := if startsWithStr line (str "```") then !inCode else inCode
      match (if !inCode' then headingMatch line else none) with
      | some (level, title) =>
          (if trimStr cur.content ≠ [] then [cur] else []) ++
            splitByHeadingsGo ⟨some title, level, line ++ ['\n']⟩ inCode' rest
      | none =>
          splitByHeadingsGo { cur with content := cur.content ++ line ++ ['\n'] } inCode' rest

/-- DocumentChunker::split_by_headings. -/
def splitByHeadings (content : Str) : List DocSection :=
  splitByHeadingsGo ⟨none, 0, []⟩ false (rustLines content)

/-- DocumentChunker::split_by_paragraphs. -/
def splitByParagraphs (content : Str) : List Str :=
  ((splitOnList content (str "\n\n")).map trimStr).filter (fun s => s ≠ [])

/-- DocumentChunker::split_by_sentences. -/
def docSentencesGo (cur : Str) : Str → List Str
  | [] => if trimStr cur ≠ [] then [trimStr cur] else []
  | c :: rest =>
      let cur' := cur ++ [c]
      if c = '.' ∨ c = '!' ∨ c = '?' then
        (if trimStr cur' ≠ [] then [trimStr cur'] else []) ++ docSentencesGo [] rest
      else docSentencesGo cur' rest

/-- The inner sentence loop of `DocumentChunker::split_section` (lines
114-127); returns emitted chunks plus the live `(current_chunk,
current_tokens)` state, which persists into the surrounding paragraph loop. -/
def docPackSentences (tc : TokenCounter) (chunkSize : Nat) (heading : Option Str) :
    Str → Nat → List Str → List (Str × Option Str) × Str × Nat
  | cur, curTok, [] => ([], cur, curTok)
  | cur, curTok, sent :: rest =>
      let st := tc.count sent
      if curTok + st > chunkSize ∧ cur ≠ [] then
        let p := docPackSentences tc chunkSize heading (sent ++ [' ']) st rest
        ((cur, heading) :: p.1, p.2)
      else
        docPackSentences tc chunkSize heading (cur ++ sent ++ [' ']) (curTok + st) rest

/-- The paragraph loop of `DocumentChunker::split_section` (lines 101-144). -/
def docPackParas (tc : TokenCounter) (chunkSize : Nat) (heading : Option Str) :
    Str → Nat → List Str → List (Str × Option Str)
  | cur, _, [] => if cur ≠ [] then [(cur, heading)] else []
  | cur, curTok, para :: rest =>
      let pt := tc.count para
      if pt > chunkSize then
        let flushed := if cur ≠ [] then [(cur, heading)] else []
        let p := docPackSentences tc chunkSize heading [] 0 (docSentencesGo [] para)
        flushed ++ p.1 ++ docPackParas tc chunkSize heading p.2.1 p.2.2 rest
      else if curTok + pt > chunkSize then
        (cur, heading) :: docPackParas tc chunkSize heading para pt rest
      else
        let cur' := (if cur ≠ [] then cur ++ str "\n\n" else cur) ++ para
        docPackParas tc chunkSize heading cur' (curTok + pt) rest

/-- DocumentChunker::split_section (lines 82-153). -/
def splitSection (tc : TokenCounter) (sec : DocSection) (chunkSize : Nat) :
    List (Str × Option Str) :=
  if tc.count sec.content ≤ chunkSize then [(sec.content, sec.heading)]
  else
    let chunks := docPackParas tc chunkSize sec.heading [] 0 (splitByParagraphs sec.content)
    match sec.heading, chunks with
    | some h, (first, hd) :: rest =>
        (List.replicate sec.level '#' ++ [' '] ++ h ++ str "\n\n" ++ first, hd) :: rest
    | _, _ => chunks

/-- The emission loop of `DocumentChunker::chunk` (lines 238-267): dense
ordinals and running byte positions over the flattened section chunks. -/
def docEmitGo (tc : TokenCounter) (item : SourceItem) :
    Nat → Nat → List (Str × Option Str) → List Chunk
  | _, _, [] => []
  | idx, curByte, (text, heading) :: rest =>
      let endIdx := curByte + bytesLen text
      { content := text
        token_count := tc.count text
        start_index := curByte
        end_index := endIdx
        chunk_index := idx
        metadata := { sectionName := heading, path := item.extract_path } } ::
        docEmitGo tc item (idx + 1) endIdx rest

/-- DocumentChunker::chunk. -/
def documentChunkerChunk (tc : TokenCounter) (item : SourceItem) (cfg : ChunkConfig) :
    RResult (List Chunk) :=
  if item.content = [] then .ok []
  else
    .ok (docEmitGo tc item 0 0
      (((splitByHeadings item.content).map
        (fun s => splitSection tc s cfg.chunk_size)).flatten))

/-! ## TableChunker (src/chunkers/table_chunker.rs) -/

/-- TableChunker::parse_markdown_table. -/
def parseMarkdownTable (content : Str) : Option (Str × Str × List Str) :=
  let lines := rustLines content
  if lines.length < 3 then none
  else
    match lines.find? (fun l => startsWithStr (trimStr l) ['|']) with
    | none => none
    | some header =>
        match lines.findIdx? (fun l =>
            startsWithStr (trimStr l) ['|'] && (trimStr l).contains '-') with
        | none => none
        | some sepIdx =>
            let separator := (lines.get? sepIdx).getD []
            let dataRows := (lines.drop (sepIdx + 1)).filter
              (fun l => startsWithStr (trimStr l) ['|'])
            if dataRows = [] then none else some (header, separator, dataRows)

/-- TableChunker::parse_csv. -/
def parseCsv (content : Str) : Option (Str × List Str) :=
  match rustLines content with
  | l0 :: l1 :: rest => some (l0, l1 :: rest)
  | _ => none

/-- TableChunker::is_markdown_table. -/
def isMarkdownTable (content : Str) : Bool :=
  startsWithStr (trimStr ((rustLines content).headD [])) ['|']

/-- The `format!("{}\n", r)` concatenation of accumulated rows. -/
def rowsText (curRows : List Str) : Str :=
  (curRows.map (fun r => r ++ ['\n'])).flatten

/-- One table chunk, as built at the `Chunk::new` call sites of
`chunk_markdown_table` / `chunk_csv`. -/
def tableMkChunk (tc : TokenCounter) (headerPart : Str) (curRows : List Str)
    (curIndex idx : Nat) (kind : Str) : Chunk :=
  let content := headerPart ++ rowsText curRows
  { content := content
    token_count := tc.count content
    start_index := curIndex
    end_index := curIndex + bytesLen content
    chunk_index := idx
    metadata := { content_type := some kind } }

/-- The row loop shared (textually duplicated in the source) by
`chunk_markdown_table` (lines 116-177) and `chunk_csv` (lines 201-260). -/
def tableRowsGo (tc : TokenCounter) (headerPart : Str) (maxTok : Nat) (kind : Str) :
    List Str → Nat → Nat → Nat → List Str → List Chunk
  | curRows, _, curIndex, idx, [] =>
      if curRows ≠ [] then [tableMkChunk tc headerPart curRows curIndex idx kind] else []
  | curRows, curTok, curIndex, idx, row :: rest =>
      let rt := tc.count row
      if curTok + rt > maxTok ∧ curRows ≠ [] then
        tableMkChunk tc headerPart curRows curIndex idx kind ::
          tableRowsGo tc headerPart maxTok kind [row] rt
            (curIndex + bytesLen (rowsText curRows)) (idx + 1) rest
      else
        tableRowsGo tc headerPart maxTok kind (curRows ++ [row]) (curTok + rt)
          curIndex idx rest

/-- TableChunker::chunk_markdown_table. -/
def chunkMarkdownTable (tc : TokenCounter) (header separator : Str)
    (dataRows : List Str) (cfg : ChunkConfig) : List Chunk :=
  let headerCombined := header ++ ['\n'] ++ separator ++ ['\n']
  tableRowsGo tc headerCombined (cfg.chunk_size - tc.count headerCombined)
    (str "table") [] 0 0 0 dataRows

/-- TableChunker::chunk_csv. -/
def chunkCsv (tc : TokenCounter) (header : Str) (dataRows : List Str)
    (cfg : ChunkConfig) : List Chunk :=
  let headerLine := header ++ ['\n']
  tableRowsGo tc headerLine (cfg.chunk_size - tc.count headerLine)
    (str "csv") [] 0 0 0 dataRows

/-- TableChunker::chunk. -/
def tableChunkerChunk (tc : TokenCounter) (item : SourceItem) (cfg : ChunkConfig) :
    RResult (List Chunk) :=
  if item.content = [] then .ok []
  else
    let fallback : List Chunk :=
      [{ content := item.content
         token_count := tc.count item.content
         start_index := 0
         end_index := bytesLen item.content
         chunk_index := 0 }]
    if isMarkdownTable item.content then
      match parseMarkdownTable item.content with
      | some (h, sep, rows) => .ok (chunkMarkdownTable tc h sep rows cfg)
      | none => .ok fallback
    else
      match parseCsv item.content with
      | some (h, rows) => .ok (chunkCsv tc h rows cfg)
      | none => .ok fallback

/-! ## CodeChunker (src/chunkers/code_chunker.rs) -/

/-- The `(text, start_line, end_line)` triples produced by
`extract_node_text` for each collected AST node. -/
structure NodeText where
  text : Str
  start_line : Nat
  end_line : Nat
deriving DecidableEq, Repr

/-- Join a list of strings with a separator (`Vec::join`). -/
def joinStr (sep : Str) (l : List Str) : Str := (List.intersperse sep l).flatten

/-- ChunkMetadata::for_code(...).with_lines(...). -/
def codeMeta (lang : Str) (item : SourceItem) (s e : Nat) : ChunkMetadata :=
  { language := some lang, path := item.extract_path, line_range := some (s, e) }

/-- CodeChunker::create_chunk_from_nodes (lines 268-301). -/
def createChunkFromNodes (tc : TokenCounter) (item : SourceItem) (lang : Str)
    (nodes : List NodeText) (idx : Nat) : Chunk :=
  let content := joinStr (str "\n\n") (nodes.map (fun n => n.text))
  { content := content
    token_count := tc.count content
    start_index := 0
    end_index := bytesLen content
    chunk_index := idx
    metadata := codeMeta lang item
      (((nodes.head?).map (fun n => n.start_line)).getD 1)
      (((nodes.getLast?).map (fun n => n.end_line)).getD 1) }

/-- The line loop of `CodeChunker::split_large_node` (lines 304-378),
threading the `&mut chunk_index`; returns the chunks and the final index. -/
def splitLargeNodeGo (tc : TokenCounter) (item : SourceItem) (lang : Str)
    (chunkSize startLine endLine : Nat) :
    Str → Nat → Nat → List (Nat × Str) → List Chunk × Nat
  | curText, curStart, idx, [] =>
      if curText ≠ [] then
        ([{ content := curText
            token_count := tc.count curText
            start_index := 0
            end_index := bytesLen curText
            chunk_index := idx
            metadata := codeMeta lang item curStart endLine }], idx + 1)
      else ([], idx)
  | curText, curStart, idx, (i, line) :: rest =>
      let testText := if curText = [] then line else curText ++ ['\n'] ++ line
      if tc.count testText > chunkSize ∧ curText ≠ [] then
        let c : Chunk :=
          { content := curText
            token_count := tc.count curText
            start_index := 0
            end_index := bytesLen curText
            chunk_index := idx
            metadata := codeMeta lang item curStart (startLine + i - 1) }
        let p := splitLargeNodeGo tc item lang chunkSize startLine endLine
          line (startLine + i) (idx + 1) rest
        (c :: p.1, p.2)
      else
        splitLargeNodeGo tc item lang chunkSize startLine endLine testText curStart idx rest

/-- CodeChunker::split_large_node. -/
def splitLargeNode (tc : TokenCounter) (item : SourceItem) (lang : Str)
    (text : Str) (startLine endLine chunkSize idx : Nat) : List Chunk × Nat :=
  splitLargeNodeGo tc item lang chunkSize startLine endLine [] startLine idx
    (rustLines text).enum

/-- CodeChunker::group_nodes_into_chunks (lines 186-265). -/
def groupNodesGo (tc : TokenCounter) (item : SourceItem) (lang : Str) (chunkSize : Nat) :
    List NodeText → Nat → Nat → List NodeText → List Chunk
  | curNodes, _, idx, [] =>
      if curNodes ≠ [] then [createChunkFromNodes tc item lang curNodes idx] else []
  | curNodes, curTok, idx, node :: rest =>
      let nt := tc.count node.text
      if nt > chunkSize then
        let flushed : List Chunk × Nat :=
          if curNodes ≠ [] then ([createChunkFromNodes tc item lang curNodes idx], idx + 1)
          else ([], idx)
        let p := splitLargeNode tc item lang node.text node.start_line node.end_line
          chunkSize flushed.2
        flushed.1 ++ p.1 ++ groupNodesGo tc item lang chunkSize [] 0 p.2 rest
      else if curTok + nt > chunkSize then
        createChunkFromNodes tc item lang curNodes idx ::
          groupNodesGo tc item lang chunkSize [node] nt (idx + 1) rest
      else
        groupNodesGo tc item lang chunkSize (curNodes ++ [node]) (curTok + nt) idx rest

/-- CodeChunker::group_nodes_into_chunks entry state. -/
def groupNodesIntoChunks (tc : TokenCounter) (item : SourceItem) (lang : Str)
    (chunkSize : Nat) (nodes : List NodeText) : List Chunk :=
  groupNodesGo tc item lang chunkSize [] 0 0 nodes

/-- The line loop of `CodeChunker::fallback_chunk` (lines 381-446). -/
def fallbackGo (tc : TokenCounter) (item : SourceItem) (lang : Str)
    (chunkSize totalLines : Nat) :
    List Str → Nat → Nat → Nat → List (Nat × Str) → List Chunk
  | curLines, _, idx, startLine, [] =>
      if curLines ≠ [] then
        let content := joinStr ['\n'] curLines
        [{ content := content
           token_count := tc.count content
           start_index := 0
           end_index := bytesLen content
           chunk_index := idx
           metadata := codeMeta lang item startLine totalLines }]
      else []
  | curLines, curTok, idx, startLine, (i, line) :: rest =>
      let lt := tc.count line
      if curTok + lt > chunkSize ∧ curLines ≠ [] then
        let content := joinStr ['\n'] curLines
        { content := content
          token_count := tc.count content
          start_index := 0
          end_index := bytesLen content
          chunk_index := idx
          metadata := codeMeta lang item startLine i } ::
          fallbackGo tc item lang chunkSize totalLines [line] lt (idx + 1) (i + 1) rest
      else
        fallbackGo tc item lang chunkSize totalLines (curLines ++ [line])
          (curTok + lt) idx startLine rest

/-- CodeChunker::fallback_chunk. -/
def fallbackChunk (tc : TokenCounter) (item : SourceItem) (cfg : ChunkConfig)
    (lang : Str) : List Chunk :=
  let lines := rustLines item.content
  fallbackGo tc item lang cfg.chunk_size lines.length [] 0 0 1 lines.enum

/-- Languages registered in `CodeChunker::new`. -/
def codeSupportedLangs : List Str :=
  [str "rust", str "rs", str "python", str "py", str "javascript", str "js",
   str "jsx", str "typescript", str "ts", str "tsx", str "go", str "c",
   str "cpp", str "c++", str "java", str "ruby", str "rb"]

/-- Rust `str::to_lowercase`, approximated by per-char lowering. -/
def toLowerStr (s : Str) : Str := s.map Char.toLower

/-- CodeChunker::get_language(...).is_some(). -/
def codeLangSupported (lang : Str) : Bool :=
  codeSupportedLangs.contains (toLowerStr lang)

/-- CodeChunker::chunk.  The tree-sitter parse, `collect_chunk_nodes`
traversal and `extract_node_text` comment expansion live in the external
`tree_sitter` crate's node API; they are abstracted as `oracle lang content`,
returning `none` for a parse failure and otherwise the extracted node texts
(after the top-level-children retry of lines 513-517). -/
def codeChunkerChunk (tc : TokenCounter) (oracle : Str → Str → Option (List NodeText))
    (item : SourceItem) (cfg : ChunkConfig) : RResult (List Chunk) :=
  if item.content = [] then .ok []
  else
    let language := ((cfg.language).orElse (fun _ => item.extract_language)).getD (str "text")
    if ¬ codeLangSupported language then .ok (fallbackChunk tc item cfg language)
    else
      match oracle language item.content with
      | none => .ok (fallbackChunk tc item cfg language)
      | some [] => .ok (fallbackChunk tc item cfg language)
      | some nodes => .ok (groupNodesIntoChunks tc item language cfg.chunk_size nodes)

/-! ## RecursiveChunker (src/chunkers/recursive_chunker.rs) -/

/-- Separators of `RecursiveChunker::new`. -/
def recursiveSeparators : List Str :=
  [str "\n\n", str "\n", str ". ", str "! ", str "? ", str "; ", str ", ", str " "]

/-- RecursiveChunker::split_by_chars (lines 153-171). -/
def splitByChars (tc : TokenCounter) (chunkSize : Nat) : Str → Str → List Str
  | cur, [] => if cur ≠ [] then [cur] else []
  | cur, c :: rest =>
      let cur' := cur ++ [c]
      if tc.count cur' ≥ chunkSize then cur' :: splitByChars tc chunkSize [] rest
      else splitByChars tc chunkSize cur' rest

mutual

/-- RecursiveChunker::recursive_chunk (lines 81-150).  `fuel` bounds the
recursion depth; every source-reachable call chain shrinks either the text
or the remaining separator list, so a fuel of
`(|text|+2) * (|separators|+2) + 16` is never exhausted. -/
def recursiveChunkGo (tc : TokenCounter) (seps : List Str) (chunkSize : Nat) :
    Nat → Str → Nat → RResult (List Str)
  | 0, _, _ => .error .diverge
  | fuel + 1, text, sepIdx =>
      if text = [] then .ok []
      else if tc.count text ≤ chunkSize then .ok [text]
      else if sepIdx ≥ seps.length then .ok (splitByChars tc chunkSize [] text)
      else
        let sep := seps.getD sepIdx []
        let splits := splitOnList text sep
        if splits.length ≤ 1 then recursiveChunkGo tc seps chunkSize fuel text (sepIdx + 1)
        else recursiveMergeGo tc seps chunkSize fuel sep sepIdx [] splits

/-- The split-merging loop inside `recursive_chunk` (lines 111-149). -/
def recursiveMergeGo (tc : TokenCounter) (seps : List Str) (chunkSize : Nat) :
    Nat → Str → Nat → Str → List Str → RResult (List Str)
  | 0, _, _, _, _ => .error .diverge
  | _ + 1, _, _, cur, [] => .ok (if cur ≠ [] then [cur] else [])
  | fuel + 1, sep, sepIdx, cur, split :: rest =>
      let test := if cur = [] then split else cur ++ sep ++ split
      if tc.count test ≤ chunkSize then
        recursiveMergeGo tc seps chunkSize fuel sep sepIdx test rest
      else
        let flushed := if cur ≠ [] then [cur] else []
        if tc.count split > chunkSize then
          match recursiveChunkGo tc seps chunkSize fuel split (sepIdx + 1) with
          | .ok subs =>
              match recursiveMergeGo tc seps chunkSize fuel sep sepIdx [] rest with
              | .ok more => .ok (flushed ++ subs ++ more)
              | .error e => .error e
          | .error e => .error e
        else
          match recursiveMergeGo tc seps chunkSize fuel sep sepIdx split rest with
          | .ok more => .ok (flushed ++ more)
          | .error e => .error e

end

/-- Emit loop of `RecursiveChunker::chunk` (lines 199-219). -/
def recursiveEmitGo (tc : TokenCounter) : Nat → Nat → List Str → List Chunk
  | _, _, [] => []
  | idx, curIndex, text :: rest =>
      let endIndex := curIndex + bytesLen text
      { content := text
        token_count := tc.count text
        start_index := curIndex
        end_index := endIndex
        chunk_index := idx } :: recursiveEmitGo tc (idx + 1) endIndex rest

/-- RecursiveChunker::chunk. -/
def recursiveChunkerChunk (tc : TokenCounter) (item : SourceItem) (cfg : ChunkConfig) :
    RResult (List Chunk) :=
  if item.content = [] then .ok []
  else
    match recursiveChunkGo tc recursiveSeparators cfg.chunk_size
        ((item.content.length + 2) * (recursiveSeparators.length + 2) + 16)
        item.content 0 with
    | .error e => .error e
    | .ok texts => .ok (recursiveEmitGo tc 0 0 texts)

/-! ## ChatChunker (src/chunkers/chat_chunker.rs) -/

/-- Chat message (`ChatMessage` struct). -/
structure ChatMessage where
  user : Str
  text : Str
  ts : Option Str
deriving DecidableEq, Repr

/-- Chat thread (`ChatThread` struct). -/
structure ChatThread where
  channel : Option Str
  thread_ts : Option Str
  messages : List ChatMessage
deriving DecidableEq, Repr

/-- Rust `str::split_once(pat)`: split at the leftmost match. -/
def splitOnceStr (s pat : Str) : Option (Str × Str) :=
  match (List.range (s.length + 1)).find? (fun i => pat.isPrefixOf (s.drop i)) with
  | some i => some (s.take i, s.drop (i + pat.length))
  | none => none

/-- Parse of one non-blank line in `ChatChunker::parse_chat_text`
(lines 54-80). -/
def parseChatTextMsg (line : Str) : ChatMessage :=
  match splitOnceStr line (str ": ") with
  | some (meta, text) =>
      if startsWithStr meta (str "[") then
        match meta.findIdx? (fun c => c = ']') with
        | some e =>
            ⟨trimStr (meta.drop (e + 1)), text, some ((meta.drop 1).take (e - 1))⟩
        | none => ⟨meta, text, none⟩
      else ⟨meta, text, none⟩
  | none => ⟨str "unknown", line, none⟩

/-- ChatChunker::parse_chat_text. -/
def parseChatText (content : Str) : ChatThread :=
  ⟨none, none,
    ((rustLines content).filter (fun l => trimStr l ≠ [])).map parseChatTextMsg⟩

/-- ChatChunker::format_message. -/
def formatMessage (includeSpeakers : Bool) (m : ChatMessage) : Str :=
  if includeSpeakers then m.user ++ str ": " ++ m.text else m.text

/-- One chat chunk (`Chunk::new` + `ChunkMetadata::for_chat`; the chrono
timestamp parse is external and the field is dropped from the model). -/
def chatMkChunk (tc : TokenCounter) (cur : List ChatMessage) (text : Str)
    (idx : Nat) : Chunk :=
  { content := text
    token_count := tc.count text
    start_index := 0
    end_index := bytesLen text
    chunk_index := idx
    metadata := { author := (cur.head?).map (fun m => m.user) } }

/-- The message-packing loop of `ChatChunker::chunk` (lines 158-237). -/
def chatPackGo (tc : TokenCounter) (cfg : ChunkConfig)
    (maxMsgs : Nat) (includeSpeakers : Bool) :
    List ChatMessage → Str → Nat → Nat → List ChatMessage → List Chunk
  | cur, curText, _, idx, [] =>
      if cur ≠ [] then [chatMkChunk tc cur curText idx] else []
  | cur, curText, curTok, idx, m :: rest =>
      let mtext := formatMessage includeSpeakers m
      let mtok := tc.count mtext
      if (curTok + mtok > cfg.chunk_size ∧ cur ≠ []) ∨
          (maxMsgs > 0 ∧ cur.length ≥ maxMsgs) then
        chatMkChunk tc cur curText idx ::
          chatPackGo tc cfg maxMsgs includeSpeakers [m] mtext mtok (idx + 1) rest
      else
        chatPackGo tc cfg maxMsgs includeSpeakers (cur ++ [m])
          ((if curText ≠ [] then curText ++ ['\n'] else curText) ++ mtext)
          (curTok + mtok) idx rest

/-- ChatChunker::chunk with `ChatChunker::new` settings
(`max_messages_per_chunk = 0`, `include_speakers = true`); `parseJson` is the
external `serde_json::from_str::<ChatThread>`. -/
def chatChunkerChunk (tc : TokenCounter) (parseJson : Str → Option ChatThread)
    (item : SourceItem) (cfg : ChunkConfig) : RResult (List Chunk) :=
  if item.content = [] then .ok []
  else
    let thread :=
      if containsSub item.content_type (str "json") then
        (parseJson item.content).getD (parseChatText item.content)
      else parseChatText item.content
    if thread.messages = [] then .ok []
    else .ok (chatPackGo tc cfg 0 true [] [] 0 0 thread.messages)

/-! ## TicketingChunker (src/chunkers/ticketing_chunker.rs) -/

/-- Ticket comment (`Comment` struct). -/
structure TicketComment where
  author : Option Str
  body : Str
deriving DecidableEq, Repr

/-- Ticket record (`Ticket` struct). -/
structure Ticket where
  key : Option Str := none
  title : Option Str := none
  description : Option Str := none
  status : Option Str := none
  priority : Option Str := none
  assignee : Option Str := none
  reporter : Option Str := none
  comments : List TicketComment := []
deriving DecidableEq, Repr

/-- The `current_section` marker of `parse_ticket_text`. -/
inductive TicketSection where
  | description | comments
deriving DecidableEq, Repr

/-- TicketingChunker::save_section. -/
def saveSection (t : Ticket) (sec : TicketSection) (content : Str) : Ticket :=
  match sec with
  | .description => { t with description := some content }
  | .comments =>
      if content ≠ [] ∧ t.comments = [] then
        { t with comments := [⟨none, content⟩] }
      else t

/-- After-colon value extraction `split_once(':').map(|(_, v)| v.trim())`. -/
def afterColon (s : Str) : Option Str :=
  (splitOnceStr s [':']).map (fun p => trimStr p.2)

/-- The line loop of `TicketingChunker::parse_ticket_text` (lines 42-82). -/
def parseTicketTextGo (t : Ticket) (sec : TicketSection) (secContent : Str) :
    List Str → Ticket × TicketSection × Str
  | [] => (t, sec, secContent)
  | line :: rest =>
      let trimmed := trimStr line
      if startsWithStr trimmed (str "Title:") ∨ startsWithStr trimmed (str "Summary:") then
        parseTicketTextGo { t with title := afterColon trimmed } sec secContent rest
      else if startsWithStr trimmed (str "Description:") then
        let t' := if secContent ≠ [] then saveSection t sec secContent else t
        parseTicketTextGo t' .description
          (trimStr ((stripPrefixStr trimmed (str "Description:")).getD [])) rest
      else if startsWithStr trimmed (str "Comments:") ∨
          startsWithStr trimmed (str "Discussion:") then
        let t' := if secContent ≠ [] then saveSection t sec secContent else t
        parseTicketTextGo t' .comments [] rest
      else if startsWithStr trimmed (str "Status:") then
        parseTicketTextGo { t with status := afterColon trimmed } sec secContent rest
      else if startsWithStr trimmed (str "Priority:") then
        parseTicketTextGo { t with priority := afterColon trimmed } sec secContent rest
      else if startsWithStr trimmed (str "Assignee:") then
        parseTicketTextGo { t with assignee := afterColon trimmed } sec secContent rest
      else if startsWithStr trimmed (str "Reporter:") ∨
          startsWithStr trimmed (str "Author:") then
        parseTicketTextGo { t with reporter := afterColon trimmed } sec secContent rest
      else if startsWithStr trimmed (str "- ") ∧ sec = .comments then
        let body := (stripPrefixStr trimmed (str "- ")).getD trimmed
        parseTicketTextGo { t with comments := t.comments ++ [⟨none, body⟩] }
          sec secContent rest
      else
        parseTicketTextGo t sec
          ((if secContent ≠ [] then secContent ++ ['\n'] else secContent) ++ trimmed) rest

/-- TicketingChunker::parse_ticket_text. -/
def parseTicketText (content : Str) : Ticket :=
  let p := parseTicketTextGo {} .description [] (rustLines content)
  let t := if p.2.2 ≠ [] then saveSection p.1 p.2.1 p.2.2 else p.1
  if t.title = none ∧ t.description = none ∧ t.comments = [] then
    { t with description := some content }
  else t

/-- TicketingChunker::format_header. -/
def formatHeader (t : Ticket) : Str :=
  let parts : List Str :=
    ((t.title.map (fun x => str "# " ++ x)).toList ++
     (t.key.map (fun x => str "**Ticket**: " ++ x)).toList ++
     (t.status.map (fun x => str "**Status**: " ++ x)).toList ++
     (t.priority.map (fun x => str "**Priority**: " ++ x)).toList ++
     (t.assignee.map (fun x => str "**Assignee**: " ++ x)).toList)
  joinStr ['\n'] parts

/-- TicketingChunker::format_description. -/
def formatDescription (t : Ticket) : Option Str :=
  t.description.map (fun d => str "## Description\n\n" ++ d)

/-- TicketingChunker::format_comments. -/
def formatComments (t : Ticket) : Option Str :=
  if t.comments = [] then none
  else some (str "## Comments\n\n" ++
    (t.comments.map (fun c =>
      ((c.author.map (fun a => str "**" ++ a ++ str "**:\n")).getD []) ++
        c.body ++ str "\n\n---\n\n")).flatten)

/-- One description chunk of the ticketing chunker (note: the split branch
stores the *running sum* `current_tokens`, not a recount of the content). -/
def ticketDescChunk (text : Str) (tok idx : Nat) : Chunk :=
  { content := text
    token_count := tok
    start_index := 0
    end_index := bytesLen text
    chunk_index := idx
    metadata := { content_type := some (str "description") } }

/-- The `". "`-fragment loop splitting an oversized description
(ticketing_chunker.rs lines 267-323); returns chunks and the next index. -/
def ticketDescGo (tc : TokenCounter) (cfg : ChunkConfig) :
    Str → Nat → Nat → List Str → List Chunk × Nat
  | curText, curTok, idx, [] =>
      if curText ≠ [] then ([ticketDescChunk curText curTok idx], idx + 1)
      else ([], idx)
  | curText, curTok, idx, sent :: rest =>
      let st := tc.count sent
      if curTok + st > cfg.chunk_size ∧ curText ≠ [] then
        let p := ticketDescGo tc cfg sent st (idx + 1) rest
        (ticketDescChunk curText curTok idx :: p.1, p.2)
      else
        ticketDescGo tc cfg
          ((if curText ≠ [] then curText ++ str ". " else curText) ++ sent)
          (curTok + st) idx rest

/-- Generic emission with consecutive ordinals starting at `idx`. -/
def emitWithIdx (f : Nat → α → Chunk) : Nat → List α → List Chunk
  | _, [] => []
  | idx, a :: rest => f idx a :: emitWithIdx f (idx + 1) rest

/-- The description phase of `TicketingChunker::chunk` (lines 229-325):
emitted chunks plus the `chunk_index` left for the comments phase. -/
def ticketDescPart (tc : TokenCounter) (cfg : ChunkConfig) (ticket : Ticket) :
    List Chunk × Nat :=
  match formatDescription ticket with
  | some desc =>
      let full := formatHeader ticket ++ str "\n\n" ++ desc
      let tokc := tc.count full
      if tokc ≤ cfg.chunk_size then
        ([{ content := full
            token_count := tokc
            start_index := 0
            end_index := bytesLen full
            chunk_index := 0
            metadata := { content_type := some (str "description") } }], 1)
      else ticketDescGo tc cfg [] 0 0 (splitOnList full (str ". "))
  | none => ([], 0)

/-- The comments phase of `TicketingChunker::chunk` (lines 328-382). -/
def ticketCommentPart (tc : TokenCounter) (cfg : ChunkConfig) (ticket : Ticket)
    (startIdx : Nat) : List Chunk :=
  if ticket.comments ≠ [] then
    let cc := (formatComments ticket).getD []
    let tokc := tc.count cc
    if tokc ≤ cfg.chunk_size then
      [{ content := cc
         token_count := tokc
         start_index := 0
         end_index := bytesLen cc
         chunk_index := startIdx
         metadata := { content_type := some (str "comments") } }]
    else
      emitWithIdx (fun idx c =>
        let text := ((c.author.map (fun a => str "**" ++ a ++ str "**: ")).getD []) ++ c.body
        { content := text
          token_count := tc.count text
          start_index := 0
          end_index := bytesLen text
          chunk_index := idx
          metadata := { content_type := some (str "comment"), author := c.author } })
        startIdx ticket.comments
  else []

/-- TicketingChunker::chunk with `::new` settings (`include_metadata = true`,
`separate_comments = true`); `parseJson` is the external
`serde_json::from_str::<Ticket>`. -/
def ticketingChunkerChunk (tc : TokenCounter) (parseJson : Str → Option Ticket)
    (item : SourceItem) (cfg : ChunkConfig) : RResult (List Chunk) :=
  if item.content = [] then .ok []
  else
    let ticket :=
      if containsSub item.content_type (str "json") then
        (parseJson item.content).getD (parseTicketText item.content)
      else parseTicketText item.content
    let descPart := ticketDescPart tc cfg ticket
    let chunks := descPart.1 ++ ticketCommentPart tc cfg ticket descPart.2
    if chunks = [] then
      .ok [{ content := item.content
             token_count := tc.count item.content
             start_index := 0
             end_index := bytesLen item.content
             chunk_index := 0 }]
    else .ok chunks

/-! ## AgenticChunker (src/chunkers/agentic_chunker.rs) -/

/-- Boundary types (`BoundaryType` enum). -/
inductive BoundaryType where
  | emptyLine | heading | functionDef | classDef | typeDef | implBlock
  | moduleDef | docComment
deriving DecidableEq, Repr

/-- AgenticChunker::classify_line (lines 143-191). -/
def classifyLine (line : Str) : Option BoundaryType :=
  let trimmed := trimStr line
  if trimmed = [] then some .emptyLine
  else if startsWithStr trimmed (str "#") then some .heading
  else if startsWithStr trimmed (str "fn ") ∨ startsWithStr trimmed (str "pub fn ") ∨
      startsWithStr trimmed (str "async fn ") ∨
      startsWithStr trimmed (str "pub async fn ") then some .functionDef
  else if startsWithStr trimmed (str "impl ") ∨
      startsWithStr trimmed (str "pub impl ") then some .implBlock
  else if startsWithStr trimmed (str "struct ") ∨
      startsWithStr trimmed (str "pub struct ") ∨
      startsWithStr trimmed (str "enum ") ∨
      startsWithStr trimmed (str "pub enum ") then some .typeDef
  else if startsWithStr trimmed (str "class ") ∨
      startsWithStr trimmed (str "interface ") then some .classDef
  else if startsWithStr trimmed (str "def ") ∨
      startsWithStr trimmed (str "async def ") then some .functionDef
  else if startsWithStr trimmed (str "mod ") ∨
      startsWithStr trimmed (str "pub mod ") then some .moduleDef
  else if startsWithStr trimmed (str "///") ∨ startsWithStr trimmed (str "//!") ∨
      startsWithStr trimmed (str "/**") ∨ startsWithStr trimmed (str "/*") then
    some .docComment
  else none

/-- AgenticChunker::boundary_strength (lines 194-210).  The source uses `f32`
values in tenths and twentieths; they are represented here scaled by 100
(0.8 ↦ 80, …), which preserves every comparison the algorithm makes for
heading levels ≤ 6 (beyond level 9 the f32 value would go negative while the
Nat model saturates at 0; no claim depends on such headings). -/
def boundaryStrength (line : Str) (bt : BoundaryType) : Nat :=
  let trimmed := trimStr line
  match bt with
  | .heading => 100 - ((trimmed.takeWhile (fun c => c = '#')).length) * 10
  | .functionDef => 80
  | .classDef => 90
  | .typeDef => 90
  | .implBlock => 85
  | .moduleDef => 95
  | .docComment => 30
  | .emptyLine => 20

/-- A semantic boundary (`SemanticBoundary` struct). -/
structure SemanticBoundary where
  line_number : Nat
  byte_offset : Nat
  boundary_type : BoundaryType
  strength : Nat
deriving DecidableEq, Repr

/-- AgenticChunker::find_semantic_boundaries (lines 118-140). -/
def findSemanticBoundariesGo : Nat → Nat → List Str → List SemanticBoundary
  | _, _, [] => []
  | lineNum, curByte, line :: rest =>
      let tail := findSemanticBoundariesGo (lineNum + 1) (curByte + bytesLen line + 1) rest
      match classifyLine line with
      | some bt => ⟨lineNum, curByte, bt, boundaryStrength line bt⟩ :: tail
      | none => tail

/-- AgenticChunker::find_semantic_boundaries entry. -/
def findSemanticBoundaries (content : Str) : List SemanticBoundary :=
  findSemanticBoundariesGo 0 0 (rustLines content)

/-- Stable descending insertion by strength, mirroring the stable
`sort_by(|a, b| b.strength.partial_cmp(&a.strength))`. -/
def insertDescStrength (a : SemanticBoundary) : List SemanticBoundary → List SemanticBoundary
  | [] => [a]
  | b :: bs => if a.strength > b.strength then a :: b :: bs else b :: insertDescStrength a bs

/-- Stable sort of boundaries by descending strength. -/
def sortDescStrength (l : List SemanticBoundary) : List SemanticBoundary :=
  l.foldl (fun acc a => insertDescStrength a acc) []

/-- Rust `Iterator::max_by` keeps the last of equally-maximal elements. -/
def maxByStrengthLast : Option SemanticBoundary → List SemanticBoundary →
    Option SemanticBoundary
  | best, [] => best
  | best, b :: rest =>
      maxByStrengthLast
        (match best with
         | none => some b
         | some m => if b.strength ≥ m.strength then some b else some m) rest

/-- AgenticChunker::find_best_boundary (lines 310-323). -/
def findBestBoundary (bs : List SemanticBoundary) (startLine endLine : Nat) : Nat :=
  ((maxByStrengthLast none (bs.filter
      (fun b => startLine ≤ b.line_number ∧ b.line_number ≤ endLine))).map
    (fun b => b.line_number)).getD endLine

/-- Drop `n` bytes off the front of a string; `none` when `n` is not a char
boundary or exceeds the length (a Rust slice panic). -/
def dropBytes : Str → Nat → Option Str
  | s, 0 => some s
  | [], _ + 1 => none
  | c :: rest, n + 1 =>
      if c.utf8Size ≤ n + 1 then dropBytes rest (n + 1 - c.utf8Size) else none

/-- Take the first `n` bytes of a string; `none` on a non-boundary cut. -/
def takeBytes : Str → Nat → Option Str
  | _, 0 => some []
  | [], _ + 1 => none
  | c :: rest, n + 1 =>
      if c.utf8Size ≤ n + 1 then
        (takeBytes rest (n + 1 - c.utf8Size)).map (fun t => c :: t)
      else none

/-- Rust `&s[a..b]` on the char model: `none` models the boundary panic. -/
def sliceBytes (s : Str) (a b : Nat) : Option Str :=
  if a ≤ b then (dropBytes s a).bind (fun t => takeBytes t (b - a)) else none

/-- A chunk candidate (`ChunkCandidate`; dead `context_after`/`metadata`
fields dropped). -/
structure ChunkCandidate where
  content : Str
  start_byte : Nat
  end_byte : Nat
  context_before : Option Str := none
deriving DecidableEq, Repr

/-- Line starts used by `split_at_boundaries` (`line_byte_offsets`). -/
def lineByteOffsets (lines : List Str) : List Nat :=
  (lines.foldl (fun acc l => (acc.headD 0 + bytesLen l + 1) :: acc) [0]).reverse

/-- The splitting loop of `AgenticChunker::split_at_boundaries` (lines
251-299).  `error .panic` models the out-of-range byte slice the source hits
when the final split lands past a content that lacks a trailing newline. -/
def agenticSplitGo (content : Str) (tc : TokenCounter) (chunkSize : Nat)
    (sortedBs : List SemanticBoundary) (offsets : List Nat) :
    Nat → Nat → Nat → List (Nat × Str) → RResult (List ChunkCandidate)
  | curStart, _, _, [] =>
      if curStart < bytesLen content then
        match dropBytes content curStart with
        | some fin =>
            .ok (if trimStr fin ≠ [] then
              [⟨fin, curStart, bytesLen content, none⟩] else [])
        | none => .error .panic
      else .ok []
  | curStart, curTok, lastSplit, (lineIdx, line) :: rest =>
      let curTok' := curTok + tc.count line
      if curTok' ≥ chunkSize then
        let splitLine := findBestBoundary sortedBs lastSplit lineIdx
        let splitByte := (offsets.get? (splitLine + 1)).getD (bytesLen content)
        match sliceBytes content curStart splitByte with
        | none => .error .panic
        | some cc =>
            match agenticSplitGo content tc chunkSize sortedBs offsets
                splitByte 0 (splitLine + 1) rest with
            | .ok more =>
                .ok ((if trimStr cc ≠ [] then [⟨cc, curStart, splitByte, none⟩]
                  else []) ++ more)
            | .error e => .error e
      else
        agenticSplitGo content tc chunkSize sortedBs offsets
          curStart curTok' lastSplit rest

/-- AgenticChunker::inject_context_into_candidates (lines 326-358). -/
def injectContext (cands : List ChunkCandidate) : List ChunkCandidate :=
  if cands.length < 2 then cands
  else
    match cands with
    | [] => []
    | first :: rest =>
        let imports := (rustLines first.content).filter (fun l =>
          let t := trimStr l
          startsWithStr t (str "use ") || startsWithStr t (str "import ") ||
          startsWithStr t (str "from ") || startsWithStr t (str "#include"))
        first :: rest.map (fun cand =>
          if imports ≠ [] ∧
              (containsSub cand.content (str "fn ") ∨
               containsSub cand.content (str "def ") ∨
               containsSub cand.content (str "class ")) then
            { cand with context_before := some (joinStr ['\n'] imports) }
          else cand)

/-- AgenticChunker::split_at_boundaries (lines 213-307), with
`inject_context = true` as set by `AgenticChunker::new`. -/
def splitAtBoundaries (tc : TokenCounter) (content : Str) (cfg : ChunkConfig) :
    RResult (List ChunkCandidate) :=
  if tc.count content ≤ cfg.chunk_size then
    .ok [⟨content, 0, bytesLen content, none⟩]
  else
    let lines := rustLines content
    let sortedBs := sortDescStrength (findSemanticBoundaries content)
    match agenticSplitGo content tc cfg.chunk_size sortedBs
        (lineByteOffsets lines) 0 0 0 lines.enum with
    | .ok cands => .ok (injectContext cands)
    | .error e => .error e

/-- AgenticChunker::chunk (lines 376-423). -/
def agenticChunkerChunk (tc : TokenCounter) (item : SourceItem) (cfg : ChunkConfig) :
    RResult (List Chunk) :=
  if item.content = [] then .ok []
  else
    match splitAtBoundaries tc item.content cfg with
    | .error e => .error e
    | .ok cands =>
        .ok (emitWithIdx (fun idx cand =>
          let finalContent :=
            match cand.context_before with
            | some ctx => str "// Context:\n" ++ ctx ++ str "\n\n" ++ cand.content
            | none => cand.content
          { content := finalContent
            token_count := tc.count finalContent
            start_index := cand.start_byte
            end_index := cand.end_byte
            chunk_index := idx
            metadata := { content_type := some (str "agentic")
                          path := item.extract_path
                          language := cfg.language } }) 0 cands)

/-! ## Strategy router (src/router/mod.rs) -/

/-- The nine chunkers held by `ChunkingRouter`. -/
inductive ChunkerKind where
  | token | sentence | recursive | code | document | chat | ticketing | table
  | agentic
deriving DecidableEq, Repr

/-- ChunkingRouter::match_content_type (lines 82-100). -/
def matchContentType (ct : Str) : Option ChunkerKind :=
  if startsWithStr ct (str "text/code:") || containsSub ct (str "x-source") then
    some .code
  else if containsSub ct (str "markdown") || containsSub ct (str "x-markdown") then
    some .document
  else if containsSub ct (str "json") && containsSub ct (str "chat") then
    some .chat
  else if containsSub ct (str "csv") || containsSub ct (str "table") then
    some .table
  else none

/-- ChunkingRouter::get_chunker (lines 62-79). -/
def getChunker (item : SourceItem) : ChunkerKind :=
  match matchContentType item.content_type with
  | some k => k
  | none =>
      match item.source_kind with
      | .codeRepo => .code
      | .document => .document
      | .wiki => .document
      | .chat => .chat
      | .email => .chat
      | .ticketing => .ticketing
      | .web => .recursive
      | .other => .sentence

/-- ChunkingRouter::get_config (lines 103-112). -/
def getConfig (defaultConfig : ChunkConfig) (item : SourceItem) : ChunkConfig :=
  if item.source_kind = .codeRepo ∨ startsWithStr item.content_type (str "text/code:") then
    { defaultConfig with language := item.extract_language }
  else defaultConfig

/-! ## ContextBuilder (src/enrichment/context_builder.rs) -/

/-- src/ast_engine/entity_extractor.rs `EntityType`. -/
inductive EntityType where
  | function | method | classT | structT | enumT | interfaceT | traitT
  | moduleT | importT | variableT | constantT
deriving DecidableEq, Repr

/-- The `derive(Debug)` rendering used by `format!("{:?} {}", ...)`. -/
def entityTypeDebugStr : EntityType → Str
  | .function => str "Function"
  | .method => str "Method"
  | .classT => str "Class"
  | .structT => str "Struct"
  | .enumT => str "Enum"
  | .interfaceT => str "Interface"
  | .traitT => str "Trait"
  | .moduleT => str "Module"
  | .importT => str "Import"
  | .variableT => str "Variable"
  | .constantT => str "Constant"

/-- EntitySummary (name, type, optional signature). -/
structure EntitySummary where
  name : Str
  entity_type : EntityType
  signature : Option Str
deriving DecidableEq, Repr

/-- ChunkContext (the free-form `metadata` map is never read and dropped). -/
structure ChunkContext where
  file_path : Str
  repository : Option Str
  branch : Option Str
  language : Str
  scope : Str
  definitions : List EntitySummary
  dependencies : List Str
  documentation : Option Str
deriving DecidableEq, Repr

/-- ContextBuilder configuration record. -/
structure ContextBuilder where
  include_file_path : Bool
  include_scope : Bool
  include_definitions : Bool
  include_dependencies : Bool
  max_prefix_length : Nat
  separator : Str
deriving DecidableEq, Repr

/-- ContextBuilder::default. -/
def ContextBuilder.default : ContextBuilder :=
  ⟨true, true, true, true, 500, str "\n---\n"⟩

/-- Decimal rendering of a Nat (for `format!` of counts). -/
def natToStr (n : Nat) : Str := (toString n).data

/-- The `deps.len() - 5` of the dependency-overflow label, computed with the
release-build wrapping `usize` subtraction. -/
def depsOverflowCount (n : Nat) : Nat :=
  (n + 18446744073709551616 - 5) % 18446744073709551616

/-- The pure part of `ContextBuilder::build_prefix` (lines 151-207): every
`parts.push` before the documentation block. -/
def buildPrefixParts (b : ContextBuilder) (ctx : ChunkContext) : List Str :=
  (if b.include_file_path then
    [str "# File: " ++ ctx.file_path] ++
      (if ctx.language ≠ [] then [str "# Language: " ++ ctx.language] else [])
   else []) ++
  ((ctx.repository.map (fun r => str "# Repository: " ++ r)).toList) ++
  (if b.include_scope ∧ ctx.scope ≠ [] then [str "# Scope: " ++ ctx.scope] else []) ++
  (if b.include_definitions ∧ ctx.definitions ≠ [] then
    let defs := ctx.definitions.map (fun d =>
      match d.signature with
      | some sig => sig
      | none => entityTypeDebugStr d.entity_type ++ [' '] ++ d.name)
    if defs.length = 1 then [str "# Defines: " ++ defs.headD []]
    else if defs ≠ [] then [str "# Defines: " ++ joinStr (str ", ") defs]
    else []
   else []) ++
  (if b.include_dependencies ∧ ctx.dependencies ≠ [] then
    let deps := joinStr (str ", ") ctx.dependencies
    if bytesLen deps ≤ 100 then [str "# Dependencies: " ++ deps]
    else
      [str "# Dependencies: " ++ joinStr (str ", ") (ctx.dependencies.take 5) ++
        str " (+" ++ natToStr (depsOverflowCount ctx.dependencies.length) ++
        str " more)"]
   else [])

/-- ContextBuilder::build_prefix (lines 151-231).  `error .panic` models the
two byte-slices (`&doc[..97]`, `&prefix[..max_prefix_length]`) that panic in
Rust when the cut lands inside a multi-byte code point. -/
def buildPrefix (b : ContextBuilder) (ctx : ChunkContext) : RResult Str :=
  let docPart : RResult (List Str) :=
    match ctx.documentation with
    | none => .ok []
    | some doc =>
        if bytesLen doc > 100 then
          match takeBytes doc 97 with
          | some d97 => .ok [str "# Doc: " ++ d97 ++ str "..."]
          | none => .error .panic
        else .ok [str "# Doc: " ++ doc]
  match docPart with
  | .error e => .error e
  | .ok docParts =>
      let pfx := joinStr ['\n'] (buildPrefixParts b ctx ++ docParts)
      if bytesLen pfx > b.max_prefix_length then
        match takeBytes pfx b.max_prefix_length with
        | none => .error .panic
        | some cut =>
            match (cut.reverse.findIdx? (fun c => c = '\n')).map
                (fun j => cut.length - 1 - j) with
            | some i => .ok (cut.take i)
            | none => .ok cut
      else .ok pfx

/-- EnrichedChunk. -/
structure EnrichedChunk where
  chunk : Chunk
  context : ChunkContext
  enriched_content : Str
deriving DecidableEq, Repr

/-- ContextBuilder::enrich (lines 234-247). -/
def enrich (b : ContextBuilder) (chunk : Chunk) (ctx : ChunkContext) :
    RResult EnrichedChunk :=
  match buildPrefix b ctx with
  | .error e => .error e
  | .ok pfx =>
      .ok { chunk := chunk
            context := ctx
            enriched_content :=
              if pfx = [] then chunk.content
              else pfx ++ b.separator ++ chunk.content }

/-! ## Batch pre-split (src/batch.rs) -/

/-- Raw UTF-8 byte strings, used where the source slices at computed byte
offsets that may or may not be char boundaries. -/
abbrev RBytes : Type := List Nat

/-- A UTF-8 continuation byte (`0b10xxxxxx`). -/
def isContinuationByte (b : Nat) : Bool := 128 ≤ b && b < 192

/-- Rust `str::is_char_boundary`. -/
def isCharBoundaryAt (s : RBytes) (i : Nat) : Bool :=
  if i = 0 then true
  else if i = s.length then true
  else
    match s.get? i with
    | some b => ! isContinuationByte b
    | none => false

/-- Rust `&s[a..b]` on bytes: `none` models the boundary/range panic. -/
def byteSliceR (s : RBytes) (a b : Nat) : Option RBytes :=
  if a ≤ b ∧ b ≤ s.length ∧ isCharBoundaryAt s a ∧ isCharBoundaryAt s b then
    some ((s.drop a).take (b - a))
  else none

/-- Rust `str::rfind(pat)`: byte index of the last match. -/
def rfindSub (s pat : RBytes) : Option Nat :=
  ((List.range (s.length + 1)).filter (fun i => pat.isPrefixOf (s.drop i))).getLast?

/-- A piece of content split from a larger document (`ContentPiece`). -/
structure ContentPiece where
  content : RBytes
  start_offset : Nat
deriving DecidableEq, Repr

/-- The `while current_start < content.len()` loop of `split_large_content`
(batch.rs lines 277-315).  `fuel` only guards `max_size = 0`, where the Rust
loop makes no progress. -/
def splitLargeContentGo (content : RBytes) (maxSize : Nat) :
    Nat → Nat → RResult (List ContentPiece)
  | _, 0 => .error .diverge
  | currentStart, fuel + 1 =>
      if currentStart < content.length then
        let remaining := content.length - currentStart
        if remaining ≤ maxSize then
          match byteSliceR content currentStart content.length with
          | some piece => .ok [⟨piece, currentStart⟩]
          | none => .error .panic
        else
          let searchEnd := min (currentStart + maxSize) content.length
          match byteSliceR content currentStart searchEnd with
          | none => .error .panic
          | some searchRange =>
              let splitPos :=
                match rfindSub searchRange [10, 10] with
                | some pos => currentStart + pos + 2
                | none =>
                    match rfindSub searchRange [10] with
                    | some pos => currentStart + pos + 1
                    | none => searchEnd
              match byteSliceR content currentStart splitPos with
              | none => .error .panic
              | some piece =>
                  match splitLargeContentGo content maxSize splitPos fuel with
                  | .ok rest => .ok (⟨piece, currentStart⟩ :: rest)
                  | .error e => .error e
      else .ok []

/-- src/batch.rs `split_large_content`. -/
def splitLargeContent (content : RBytes) (maxSize : Nat) : RResult (List ContentPiece) :=
  splitLargeContentGo content maxSize 0 (content.length + 1)

/-! ## Job store and processor (src/jobs) -/

/-- src/types/source.rs `ChunkJobStatus`. -/
inductive ChunkJobStatus where
  | pending | running | completed | failed
deriving DecidableEq, Repr

/-- src/jobs/store.rs `JobRecord` (timestamps are external clock reads and
dropped; `job_id` is the store key). -/
structure JobRecord where
  status : ChunkJobStatus
  total_items : Nat
  processed_items : Nat
  chunks_created : Nat
  error : Option Str
deriving DecidableEq, Repr

/-- JobRecord::new. -/
def JobRecord.new (total : Nat) : JobRecord :=
  ⟨.pending, total, 0, 0, none⟩

/-- JobRecord::start. -/
def JobRecord.start (r : JobRecord) : JobRecord := { r with status := .running }

/-- JobRecord::update_progress. -/
def JobRecord.update_progress (r : JobRecord) (processed chunks : Nat) : JobRecord :=
  { r with processed_items := processed, chunks_created := chunks }

/-- JobRecord::complete. -/
def JobRecord.complete (r : JobRecord) : JobRecord := { r with status := .completed }

/-- JobRecord::fail. -/
def JobRecord.fail (r : JobRecord) (e : Str) : JobRecord :=
  { r with status := .failed, error := some e }

/-- The in-memory job store: `HashMap<Uuid, JobRecord>` modelled as an
association list with Nat keys. -/
abbrev JobStore : Type := List (Nat × JobRecord)

/-- JobStore::get_job. -/
def storeGetJob (s : JobStore) (id : Nat) : Option JobRecord :=
  (s.find? (fun e => e.1 = id)).map (fun e => e.2)

/-- HashMap::get_mut + mutation: update the entry if present, no-op else. -/
def storeUpdate (s : JobStore) (id : Nat) (f : JobRecord → JobRecord) : JobStore :=
  match s with
  | [] => []
  | (k, r) :: rest =>
      if k = id then (k, f r) :: rest else (k, r) :: storeUpdate rest id f

/-- JobStore::start_job (ignoring the bool result, unused by the processor). -/
def storeStartJob (s : JobStore) (id : Nat) : JobStore :=
  storeUpdate s id JobRecord.start

/-- JobStore::update_job_progress. -/
def storeUpdateProgress (s : JobStore) (id processed chunks : Nat) : JobStore :=
  storeUpdate s id (fun r => r.update_progress processed chunks)

/-- JobStore::complete_job. -/
def storeCompleteJob (s : JobStore) (id : Nat) : JobStore :=
  storeUpdate s id JobRecord.complete

/-- JobStore::fail_job. -/
def storeFailJob (s : JobStore) (id : Nat) (e : Str) : JobStore :=
  storeUpdate s id (fun r => r.fail e)

/-- The per-item loop of `JobProcessor::process_job` (lines 54-77): each
item's `process_item` outcome (`some chunks` for `Ok`, `none` for a logged
and skipped `Err`) bumps `processed` and rewrites progress.  Returns the
final store, the store snapshots after each write, and the chunk total. -/
def processJobLoop (jobId : Nat) :
    JobStore → Nat → Nat → List (Option (List Chunk)) → JobStore × List JobStore × Nat
  | store, _, totalChunks, [] => (store, [], totalChunks)
  | store, processed, totalChunks, r :: rest =>
      let totalChunks' :=
        match r with
        | some chunks => totalChunks + chunks.length
        | none => totalChunks
      let store' := storeUpdateProgress store jobId (processed + 1) totalChunks'
      let p := processJobLoop jobId store' (processed + 1) totalChunks' rest
      (p.1, store' :: p.2.1, p.2.2)

/-- JobProcessor::process_job (lines 36-94).  The two downstream sink calls
run to completion inside `send_chunks_to_downstream_services`; their
settled outcomes (`embRes`, `graphRes`) are external HTTP results that the
source only logs — they are parameters here and, as in the source, have no
effect on the store.  Returns the final store and the observed store states
(initial, after `start_job`, after each progress write, after
`complete_job`). -/
def processJob (store0 : JobStore) (jobId : Nat)
    (itemResults : List (Option (List Chunk)))
    (embRes : Except Unit Nat) (graphRes : Except Unit Nat) :
    JobStore × List JobStore :=
  let s1 := storeStartJob store0 jobId
  let loop := processJobLoop jobId s1 0 0 itemResults
  let _settled := (embRes, graphRes)
  let s2 := storeCompleteJob loop.1 jobId
  (s2, store0 :: s1 :: (loop.2.1 ++ [s2]))

/-- The job-record states observed through a `process_job` run. -/
def processJobObserved (store0 : JobStore) (jobId : Nat)
    (itemResults : List (Option (List Chunk)))
    (embRes : Except Unit Nat) (graphRes : Except Unit Nat) : List JobRecord :=
  (processJob store0 jobId itemResults embRes graphRes).2.filterMap
    (fun s => storeGetJob s jobId)

/-! ## Ordinal bookkeeping lemmas -/

/-- Ordinals of `l` are exactly `k, k+1, …` in order. -/
def IdxFrom (k : Nat) (l : List Chunk) : Prop :=
  l.map (fun c => c.chunk_index) = List.range' k l.length

theorem denseIdx_of_idxFrom {l : List Chunk} (h : IdxFrom 0 l) : DenseIdx l := by
  rw [DenseIdx, List.range_eq_range']
  exact h

theorem idxFrom_nil (k : Nat) : IdxFrom k [] := rfl

theorem idxFrom_cons {k : Nat} {c : Chunk} {l : List Chunk}
    (hc : c.chunk_index = k) (hl : IdxFrom (k + 1) l) : IdxFrom k (c :: l) := by
  simp only [IdxFrom, List.map_cons, List.length_cons, List.range'_succ, hc]
  exact congrArg (k :: ·) hl

theorem idxFrom_append {k : Nat} {l1 l2 : List Chunk}
    (h1 : IdxFrom k l1) (h2 : IdxFrom (k + l1.length) l2) : IdxFrom k (l1 ++ l2) := by
  simp only [IdxFrom, List.map_append, List.length_append] at *
  rw [h1, h2, List.range'_append_1]
  ring_nf

theorem idxFrom_single {k : Nat} {c : Chunk} (hc : c.chunk_index = k) :
    IdxFrom k [c] := idxFrom_cons hc (idxFrom_nil _)

theorem tokenWindowsGo_idxFrom (tc : TokenCounter) (tokens : List Nat) (size step : Nat) :
    ∀ fuel startTok idx l,
      tokenWindowsGo tc tokens size step startTok idx fuel = .ok l → IdxFrom idx l := by
  intro fuel
  induction fuel with
  | zero => intro s i l h; simp [tokenWindowsGo] at h
  | succ f ih =>
      intro s i l h
      simp only [tokenWindowsGo] at h
      by_cases hs : s < tokens.length
      · simp only [if_pos hs] at h
        by_cases he : min (s + size) tokens.length ≥ tokens.length
        · rw [if_pos he] at h
          cases h
          exact idxFrom_single rfl
        · rw [if_neg he] at h
          cases hrec : tokenWindowsGo tc tokens size step (s + step) (i + 1) f with
          | ok rest =>
              rw [hrec] at h
              cases h
              exact idxFrom_cons rfl (ih _ _ _ hrec)
          | error e => rw [hrec] at h; cases h
      · simp only [if_neg hs] at h; cases h; exact idxFrom_nil _

theorem sentencePackGo_idxFrom (cfg : ChunkConfig) :
    ∀ sents cur curTok chunkStart idx,
      IdxFrom idx (sentencePackGo cfg cur curTok chunkStart idx sents) := by
  intro sents
  induction sents with
  | nil =>
      intro cur curTok chunkStart idx
      by_cases hc : cur ≠ [] <;> simp [sentencePackGo, hc, idxFrom_nil]
      · exact idxFrom_single rfl
  | cons s rest ih =>
      intro cur curTok chunkStart idx
      by_cases hsplit : curTok + s.token_count > cfg.chunk_size ∧ cur ≠ []
      · simp only [sentencePackGo, if_pos hsplit]
        exact idxFrom_cons rfl (ih _ _ _ _)
      · simp only [sentencePackGo, if_neg hsplit]
        exact ih _ _ _ _

theorem docEmitGo_idxFrom (tc : TokenCounter) (item : SourceItem) :
    ∀ texts idx curByte, IdxFrom idx (docEmitGo tc item idx curByte texts) := by
  intro texts
  induction texts with
  | nil => intro idx curByte; exact idxFrom_nil _
  | cons t rest ih =>
      intro idx curByte
      cases t with
      | mk text heading => exact idxFrom_cons rfl (ih _ _)

theorem recursiveEmitGo_idxFrom (tc : TokenCounter) :
    ∀ texts idx curIndex, IdxFrom idx (recursiveEmitGo tc idx curIndex texts) := by
  intro texts
  induction texts with
  | nil => intro idx curIndex; exact idxFrom_nil _
  | cons t rest ih => intro idx curIndex; exact idxFrom_cons rfl (ih _ _)

theorem emitWithIdx_idxFrom (f : Nat → α → Chunk)
    (hf : ∀ i a, (f i a).chunk_index = i) :
    ∀ l idx, IdxFrom idx (emitWithIdx f idx l) := by
  intro l
  induction l with
  | nil => intro idx; exact idxFrom_nil _
  | cons a rest ih => intro idx; exact idxFrom_cons (hf idx a) (ih _)

theorem tableRowsGo_idxFrom (tc : TokenCounter) (hp : Str) (mt : Nat) (kind : Str) :
    ∀ rows curRows curTok curIndex idx,
      IdxFrom idx (tableRowsGo tc hp mt kind curRows curTok curIndex idx rows) := by
  intro rows
  induction rows with
  | nil =>
      intro curRows curTok curIndex idx
      by_cases hc : curRows ≠ [] <;> simp [tableRowsGo, hc, idxFrom_nil]
      · exact idxFrom_single rfl
  | cons r rest ih =>
      intro curRows curTok curIndex idx
      by_cases hsplit : curTok + tc.count r > mt ∧ curRows ≠ []
      · simp only [tableRowsGo, if_pos hsplit]
        exact idxFrom_cons rfl (ih _ _ _ _)
      · simp only [tableRowsGo, if_neg hsplit]
        exact ih _ _ _ _

theorem chatPackGo_idxFrom (tc : TokenCounter) (cfg : ChunkConfig)
    (maxMsgs : Nat) (sp : Bool) :
    ∀ msgs cur curText curTok idx,
      IdxFrom idx (chatPackGo tc cfg maxMsgs sp cur curText curTok idx msgs) := by
  intro msgs
  induction msgs with
  | nil =>
      intro cur curText curTok idx
      by_cases hc : cur ≠ [] <;> simp [chatPackGo, hc, idxFrom_nil]
      · exact idxFrom_single rfl
  | cons m rest ih =>
      intro cur curText curTok idx
      by_cases hsplit :
          (curTok + tc.count (formatMessage sp m) > cfg.chunk_size ∧ cur ≠ []) ∨
          (maxMsgs > 0 ∧ cur.length ≥ maxMsgs)
      · simp only [chatPackGo, if_pos hsplit]
        exact idxFrom_cons rfl (ih _ _ _ _)
      · simp only [chatPackGo, if_neg hsplit]
        exact ih _ _ _ _

theorem splitLargeNodeGo_spec (tc : TokenCounter) (item : SourceItem) (lang : Str)
    (chunkSize startLine endLine : Nat) :
    ∀ lines curText curStart idx,
      IdxFrom idx
        (splitLargeNodeGo tc item lang chunkSize startLine endLine curText curStart idx lines).1 ∧
      (splitLargeNodeGo tc item lang chunkSize startLine endLine curText curStart idx lines).2 =
        idx + (splitLargeNodeGo tc item lang chunkSize startLine endLine
          curText curStart idx lines).1.length := by
  intro lines
  induction lines with
  | nil =>
      intro curText curStart idx
      by_cases hc : curText ≠ [] <;> simp [splitLargeNodeGo, hc, idxFrom_nil]
      · exact idxFrom_single rfl
  | cons p rest ih =>
      intro curText curStart idx
      cases p with
      | mk i line =>
          by_cases hsplit :
              tc.count (if curText = [] then line else curText ++ ['\n'] ++ line) > chunkSize ∧
                curText ≠ []
          · simp only [splitLargeNodeGo, if_pos hsplit]
            refine ⟨idxFrom_cons rfl (ih line (startLine + i) (idx + 1)).1, ?_⟩
            have h2 := (ih line (startLine + i) (idx + 1)).2
            simp only [List.length_cons]
            omega
          · simp only [splitLargeNodeGo, if_neg hsplit]
            exact ih _ _ _

theorem idxFrom_congr {k k2 : Nat} {l : List Chunk} (h : k = k2) (hl : IdxFrom k l) :
    IdxFrom k2 l := h ▸ hl

theorem groupNodesGo_idxFrom (tc : TokenCounter) (item : SourceItem) (lang : Str)
    (chunkSize : Nat) :
    ∀ nodes curNodes curTok idx,
      IdxFrom idx (groupNodesGo tc item lang chunkSize curNodes curTok idx nodes) := by
  intro nodes
  induction nodes with
  | nil =>
      intro curNodes curTok idx
      by_cases hc : curNodes ≠ [] <;> simp [groupNodesGo, hc, idxFrom_nil]
      · exact idxFrom_single rfl
  | cons node rest ih =>
      intro curNodes curTok idx
      by_cases hbig : tc.count node.text > chunkSize
      · simp only [groupNodesGo, if_pos hbig, splitLargeNode]
        by_cases hc : curNodes ≠ []
        · simp only [if_pos hc]
          obtain ⟨hs1, hs2⟩ := splitLargeNodeGo_spec tc item lang chunkSize node.start_line
            node.end_line (rustLines node.text).enum [] node.start_line (idx + 1)
          have hC := idxFrom_congr hs2 (ih [] 0
            (splitLargeNodeGo tc item lang chunkSize node.start_line node.end_line
              [] node.start_line (idx + 1) (rustLines node.text).enum).2)
          have hA : IdxFrom idx [createChunkFromNodes tc item lang curNodes idx] :=
            idxFrom_single rfl
          have hAB := idxFrom_append hA (idxFrom_congr (by simp) hs1)
          refine idxFrom_append hAB (idxFrom_congr ?_ hC)
          simp [Nat.add_assoc, Nat.add_comm]
        · simp only [if_neg hc]
          obtain ⟨hs1, hs2⟩ := splitLargeNodeGo_spec tc item lang chunkSize node.start_line
            node.end_line (rustLines node.text).enum [] node.start_line idx
          have hC := idxFrom_congr hs2 (ih [] 0
            (splitLargeNodeGo tc item lang chunkSize node.start_line node.end_line
              [] node.start_line idx (rustLines node.text).enum).2)
          exact idxFrom_append hs1 hC
      · simp only [groupNodesGo, if_neg hbig]
        by_cases hfull : curTok + tc.count node.text > chunkSize
        · simp only [if_pos hfull]
          exact idxFrom_cons rfl (ih _ _ _)
        · simp only [if_neg hfull]
          exact ih _ _ _

theorem fallbackGo_idxFrom (tc : TokenCounter) (item : SourceItem) (lang : Str)
    (chunkSize totalLines : Nat) :
    ∀ lines curLines curTok idx startLine,
      IdxFrom idx (fallbackGo tc item lang chunkSize totalLines
        curLines curTok idx startLine lines) := by
  intro lines
  induction lines with
  | nil =>
      intro curLines curTok idx startLine
      by_cases hc : curLines ≠ [] <;> simp [fallbackGo, hc, idxFrom_nil]
      · exact idxFrom_single rfl
  | cons p rest ih =>
      intro curLines curTok idx startLine
      cases p with
      | mk i line =>
          by_cases hsplit : curTok + tc.count line > chunkSize ∧ curLines ≠ []
          · simp only [fallbackGo, if_pos hsplit]
            exact idxFrom_cons rfl (ih _ _ _ _)
          · simp only [fallbackGo, if_neg hsplit]
            exact ih _ _ _ _

theorem ticketDescGo_spec (tc : TokenCounter) (cfg : ChunkConfig) :
    ∀ sents curText curTok idx,
      IdxFrom idx (ticketDescGo tc cfg curText curTok idx sents).1 ∧
      (ticketDescGo tc cfg curText curTok idx sents).2 =
        idx + (ticketDescGo tc cfg curText curTok idx sents).1.length := by
  intro sents
  induction sents with
  | nil =>
      intro curText curTok idx
      by_cases hc : curText ≠ [] <;> simp [ticketDescGo, hc, idxFrom_nil]
      · exact idxFrom_single rfl
  | cons s rest ih =>
      intro curText curTok idx
      by_cases hsplit : curTok + tc.count s > cfg.chunk_size ∧ curText ≠ []
      · simp only [ticketDescGo, if_pos hsplit]
        refine ⟨idxFrom_cons rfl (ih s (tc.count s) (idx + 1)).1, ?_⟩
        have h2 := (ih s (tc.count s) (idx + 1)).2
        simp only [List.length_cons]
        omega
      · simp only [ticketDescGo, if_neg hsplit]
        exact ih _ _ _

theorem ticketDescPart_spec (tc : TokenCounter) (cfg : ChunkConfig) (ticket : Ticket) :
    IdxFrom 0 (ticketDescPart tc cfg ticket).1 ∧
    (ticketDescPart tc cfg ticket).2 = (ticketDescPart tc cfg ticket).1.length := by
  unfold ticketDescPart
  cases formatDescription ticket with
  | none => exact ⟨idxFrom_nil _, rfl⟩
  | some desc =>
      dsimp only
      by_cases h : tc.count (formatHeader ticket ++ str "\n\n" ++ desc) ≤ cfg.chunk_size
      · rw [if_pos h]
        exact ⟨idxFrom_single rfl, rfl⟩
      · rw [if_neg h]
        have hs := ticketDescGo_spec tc cfg
          (splitOnList (formatHeader ticket ++ str "\n\n" ++ desc) (str ". ")) [] 0 0
        exact ⟨hs.1, by simpa using hs.2⟩

theorem ticketCommentPart_idxFrom (tc : TokenCounter) (cfg : ChunkConfig)
    (ticket : Ticket) (k : Nat) : IdxFrom k (ticketCommentPart tc cfg ticket k) := by
  unfold ticketCommentPart
  by_cases hc : ticket.comments ≠ []
  · rw [if_pos hc]
    dsimp only
    by_cases hfit : tc.count ((formatComments ticket).getD []) ≤ cfg.chunk_size
    · rw [if_pos hfit]
      exact idxFrom_single rfl
    · rw [if_neg hfit]
      exact emitWithIdx_idxFrom _ (fun i a => rfl) _ _
  · rw [if_neg hc]
    exact idxFrom_nil _

theorem token_okDense (tc : TokenCounter) (item : SourceItem) (cfg : ChunkConfig) :
    OkDense (tokenChunkerChunk tc item cfg) := by
  intro l h
  unfold tokenChunkerChunk at h
  by_cases hem : item.content = []
  · rw [if_pos hem] at h; cases h; exact denseIdx_of_idxFrom (idxFrom_nil 0)
  · rw [if_neg hem] at h
    dsimp only at h
    by_cases ht : tc.encode item.content = []
    · rw [if_pos ht] at h; cases h; exact denseIdx_of_idxFrom (idxFrom_nil 0)
    · rw [if_neg ht] at h
      exact denseIdx_of_idxFrom (tokenWindowsGo_idxFrom _ _ _ _ _ _ _ _ h)

theorem sentence_okDense (tc : TokenCounter) (item : SourceItem) (cfg : ChunkConfig) :
    OkDense (sentenceChunkerChunk tc item cfg) := by
  intro l h
  unfold sentenceChunkerChunk at h
  by_cases hem : item.content = []
  · rw [if_pos hem] at h; cases h; exact denseIdx_of_idxFrom (idxFrom_nil 0)
  · rw [if_neg hem] at h
    dsimp only at h
    by_cases hs : mergeShortSentences tc (splitSentencesGo tc 0 [] item.content)
        cfg.min_chars_per_sentence = []
    · rw [if_pos hs] at h; cases h; exact denseIdx_of_idxFrom (idxFrom_nil 0)
    · rw [if_neg hs] at h; cases h
      exact denseIdx_of_idxFrom (sentencePackGo_idxFrom cfg _ _ _ _ _)

theorem recursive_okDense (tc : TokenCounter) (item : SourceItem) (cfg : ChunkConfig) :
    OkDense (recursiveChunkerChunk tc item cfg) := by
  intro l h
  unfold recursiveChunkerChunk at h
  by_cases hem : item.content = []
  · rw [if_pos hem] at h; cases h; exact denseIdx_of_idxFrom (idxFrom_nil 0)
  · rw [if_neg hem] at h
    cases hrec : recursiveChunkGo tc recursiveSeparators cfg.chunk_size
        ((item.content.length + 2) * (recursiveSeparators.length + 2) + 16)
        item.content 0 with
    | error e => rw [hrec] at h; cases h
    | ok texts =>
        rw [hrec] at h; cases h
        exact denseIdx_of_idxFrom (recursiveEmitGo_idxFrom tc _ _ _)

theorem code_okDense (tc : TokenCounter) (oracle : Str → Str → Option (List NodeText))
    (item : SourceItem) (cfg : ChunkConfig) :
    OkDense (codeChunkerChunk tc oracle item cfg) := by
  intro l h
  unfold codeChunkerChunk at h
  by_cases hem : item.content = []
  · rw [if_pos hem] at h; cases h; exact denseIdx_of_idxFrom (idxFrom_nil 0)
  · rw [if_neg hem] at h
    dsimp only at h
    set language := (cfg.language.orElse fun _ => item.extract_language).getD (str "text")
      with hlang
    by_cases hsup : ¬ codeLangSupported language = true
    · rw [if_pos hsup] at h; cases h
      exact denseIdx_of_idxFrom (fallbackGo_idxFrom tc item _ _ _ _ _ _ _ _)
    · rw [if_neg hsup] at h
      cases horacle : oracle language item.content with
      | none => rw [horacle] at h; cases h
                exact denseIdx_of_idxFrom (fallbackGo_idxFrom tc item _ _ _ _ _ _ _ _)
      | some nodes =>
          rw [horacle] at h
          cases nodes with
          | nil => cases h
                   exact denseIdx_of_idxFrom (fallbackGo_idxFrom tc item _ _ _ _ _ _ _ _)
          | cons n ns =>
              cases h
              exact denseIdx_of_idxFrom (groupNodesGo_idxFrom tc item _ _ _ _ _ _)

theorem document_okDense (tc : TokenCounter) (item : SourceItem) (cfg : ChunkConfig) :
    OkDense (documentChunkerChunk tc item cfg) := by
  intro l h
  unfold documentChunkerChunk at h
  by_cases hem : item.content = []
  · rw [if_pos hem] at h; cases h; exact denseIdx_of_idxFrom (idxFrom_nil 0)
  · rw [if_neg hem] at h; cases h
    exact denseIdx_of_idxFrom (docEmitGo_idxFrom tc item _ _ _)

theorem chat_okDense (tc : TokenCounter) (pj : Str → Option ChatThread)
    (item : SourceItem) (cfg : ChunkConfig) :
    OkDense (chatChunkerChunk tc pj item cfg) := by
  intro l h
  unfold chatChunkerChunk at h
  by_cases hem : item.content = []
  · rw [if_pos hem] at h; cases h; exact denseIdx_of_idxFrom (idxFrom_nil 0)
  · rw [if_neg hem] at h
    dsimp only at h
    set thread := if containsSub item.content_type (str "json") then
        (pj item.content).getD (parseChatText item.content)
      else parseChatText item.content with hthread
    by_cases hmsgs : thread.messages = []
    · rw [if_pos hmsgs] at h; cases h; exact denseIdx_of_idxFrom (idxFrom_nil 0)
    · rw [if_neg hmsgs] at h; cases h
      exact denseIdx_of_idxFrom (chatPackGo_idxFrom tc cfg 0 true _ _ _ _ _)

theorem ticketing_okDense (tc : TokenCounter) (pj : Str → Option Ticket)
    (item : SourceItem) (cfg : ChunkConfig) :
    OkDense (ticketingChunkerChunk tc pj item cfg) := by
  intro l h
  unfold ticketingChunkerChunk at h
  by_cases hem : item.content = []
  · rw [if_pos hem] at h; cases h; exact denseIdx_of_idxFrom (idxFrom_nil 0)
  · rw [if_neg hem] at h
    dsimp only at h
    set ticket := if containsSub item.content_type (str "json") then
        (pj item.content).getD (parseTicketText item.content)
      else parseTicketText item.content with hticket
    by_cases hempty : (ticketDescPart tc cfg ticket).1 ++
        ticketCommentPart tc cfg ticket (ticketDescPart tc cfg ticket).2 = []
    · rw [if_pos hempty] at h; cases h
      exact denseIdx_of_idxFrom (idxFrom_single rfl)
    · rw [if_neg hempty] at h; cases h
      have hd := ticketDescPart_spec tc cfg ticket
      exact denseIdx_of_idxFrom (idxFrom_append hd.1
        (idxFrom_congr (by rw [hd.2, Nat.zero_add]) (ticketCommentPart_idxFrom tc cfg ticket _)))

theorem table_okDense (tc : TokenCounter) (item : SourceItem) (cfg : ChunkConfig) :
    OkDense (tableChunkerChunk tc item cfg) := by
  intro l h
  unfold tableChunkerChunk at h
  by_cases hem : item.content = []
  · rw [if_pos hem] at h; cases h; exact denseIdx_of_idxFrom (idxFrom_nil 0)
  · rw [if_neg hem] at h
    dsimp only at h
    by_cases hmd : isMarkdownTable item.content = true
    · rw [if_pos hmd] at h
      cases hp : parseMarkdownTable item.content with
      | none => rw [hp] at h; cases h; exact denseIdx_of_idxFrom (idxFrom_single rfl)
      | some t =>
          obtain ⟨hh, hsep, hrows⟩ := t
          rw [hp] at h; cases h
          exact denseIdx_of_idxFrom (tableRowsGo_idxFrom tc _ _ _ _ _ _ _ _)
    · rw [if_neg hmd] at h
      cases hp : parseCsv item.content with
      | none => rw [hp] at h; cases h; exact denseIdx_of_idxFrom (idxFrom_single rfl)
      | some t =>
          obtain ⟨hh, hrows⟩ := t
          rw [hp] at h; cases h
          exact denseIdx_of_idxFrom (tableRowsGo_idxFrom tc _ _ _ _ _ _ _ _)

theorem agentic_okDense (tc : TokenCounter) (item : SourceItem) (cfg : ChunkConfig) :
    OkDense (agenticChunkerChunk tc item cfg) := by
  intro l h
  unfold agenticChunkerChunk at h
  by_cases hem : item.content = []
  · rw [if_pos hem] at h; cases h; exact denseIdx_of_idxFrom (idxFrom_nil 0)
  · rw [if_neg hem] at h
    cases hs : splitAtBoundaries tc item.content cfg with
    | error e => rw [hs] at h; cases h
    | ok cands =>
        rw [hs] at h; cases h
        exact denseIdx_of_idxFrom (emitWithIdx_idxFrom _ (fun i a => rfl) _ _)

/-! ## Witness fixtures -/

/-- A source item with empty content. -/
def emptyItemW : SourceItem := ⟨.other, str "text/plain", [], none, none⟩

/-- A small plain-text item. -/
def itemW : SourceItem := ⟨.other, str "text/plain", str "Hello there. Bye now!", none, none⟩

/-- A small chunk configuration. -/
def cfgW : ChunkConfig := ⟨10, 0, 0, false, none⟩

/-- An AST oracle that always reports a parse failure. -/
def noNodes : Str → Str → Option (List NodeText) := fun _ _ => none

/-- A chat JSON parser that always fails (plain-text fallback). -/
def noChat : Str → Option ChatThread := fun _ => none

/-- A ticket JSON parser that always fails (text fallback). -/
def noTicket : Str → Option Ticket := fun _ => none

/-! ## Claim theorems -/

/-- C2: for every chunker on every non-empty item, the `chunk_index` values of
the emitted chunks are exactly `0, 1, …, n-1` in emission order (dense,
starting at 0, strictly increasing).  Stated for all nine chunkers of the
router, over every token counter and every external parse outcome; `OkDense`
asserts density of every successfully returned chunk list. -/
theorem ordinal_density (tc : TokenCounter)
    (oracle : Str → Str → Option (List NodeText))
    (pjChat : Str → Option ChatThread) (pjTicket : Str → Option Ticket)
    (item : SourceItem) (cfg : ChunkConfig) (hne : item.content ≠ []) :
    OkDense (tokenChunkerChunk tc item cfg) ∧
    OkDense (sentenceChunkerChunk tc item cfg) ∧
    OkDense (recursiveChunkerChunk tc item cfg) ∧
    OkDense (codeChunkerChunk tc oracle item cfg) ∧
    OkDense (documentChunkerChunk tc item cfg) ∧
    OkDense (chatChunkerChunk tc pjChat item cfg) ∧
    OkDense (ticketingChunkerChunk tc pjTicket item cfg) ∧
    OkDense (tableChunkerChunk tc item cfg) ∧
    OkDense (agenticChunkerChunk tc item cfg) :=
  ⟨token_okDense tc item cfg, sentence_okDense tc item cfg,
   recursive_okDense tc item cfg, code_okDense tc oracle item cfg,
   document_okDense tc item cfg, chat_okDense tc pjChat item cfg,
   ticketing_okDense tc pjTicket item cfg, table_okDense tc item cfg,
   agentic_okDense tc item cfg⟩

/-- Witness for C2 at a concrete non-empty item. -/
theorem ordinal_density_witness :
    OkDense (tokenChunkerChunk charCounter itemW cfgW) ∧
    OkDense (sentenceChunkerChunk charCounter itemW cfgW) ∧
    OkDense (recursiveChunkerChunk charCounter itemW cfgW) ∧
    OkDense (codeChunkerChunk charCounter noNodes itemW cfgW) ∧
    OkDense (documentChunkerChunk charCounter itemW cfgW) ∧
    OkDense (chatChunkerChunk charCounter noChat itemW cfgW) ∧
    OkDense (ticketingChunkerChunk charCounter noTicket itemW cfgW) ∧
    OkDense (tableChunkerChunk charCounter itemW cfgW) ∧
    OkDense (agenticChunkerChunk charCounter itemW cfgW) :=
  ordinal_density charCounter noNodes noChat noTicket itemW cfgW (by decide)

/-- C3: for every chunker, if `item.content` is the empty string then
`chunk(item, config)` returns `Ok` with an empty chunk list — never an
error — for all nine chunkers, every counter, and every external parse
outcome. -/
theorem empty_input_yields_empty (tc : TokenCounter)
    (oracle : Str → Str → Option (List NodeText))
    (pjChat : Str → Option ChatThread) (pjTicket : Str → Option Ticket)
    (item : SourceItem) (cfg : ChunkConfig) (h : item.content = []) :
    tokenChunkerChunk tc item cfg = .ok [] ∧
    sentenceChunkerChunk tc item cfg = .ok [] ∧
    recursiveChunkerChunk tc item cfg = .ok [] ∧
    codeChunkerChunk tc oracle item cfg = .ok [] ∧
    documentChunkerChunk tc item cfg = .ok [] ∧
    chatChunkerChunk tc pjChat item cfg = .ok [] ∧
    ticketingChunkerChunk tc pjTicket item cfg = .ok [] ∧
    tableChunkerChunk tc item cfg = .ok [] ∧
    agenticChunkerChunk tc item cfg = .ok [] := by
  refine ⟨?_, ?_, ?_, ?_, ?_, ?_, ?_, ?_, ?_⟩
  · simp [tokenChunkerChunk, h]
  · simp [sentenceChunkerChunk, h]
  · simp [recursiveChunkerChunk, h]
  · simp [codeChunkerChunk, h]
  · simp [documentChunkerChunk, h]
  · simp [chatChunkerChunk, h]
  · simp [ticketingChunkerChunk, h]
  · simp [tableChunkerChunk, h]
  · simp [agenticChunkerChunk, h]

/-- Witness for C3 at the concrete empty item. -/
theorem empty_input_yields_empty_witness :
    tokenChunkerChunk charCounter emptyItemW cfgW = .ok [] ∧
    sentenceChunkerChunk charCounter emptyItemW cfgW = .ok [] ∧
    recursiveChunkerChunk charCounter emptyItemW cfgW = .ok [] ∧
    codeChunkerChunk charCounter noNodes emptyItemW cfgW = .ok [] ∧
    documentChunkerChunk charCounter emptyItemW cfgW = .ok [] ∧
    chatChunkerChunk charCounter noChat emptyItemW cfgW = .ok [] ∧
    ticketingChunkerChunk charCounter noTicket emptyItemW cfgW = .ok [] ∧
    tableChunkerChunk charCounter emptyItemW cfgW = .ok [] ∧
    agenticChunkerChunk charCounter emptyItemW cfgW = .ok [] :=
  empty_input_yields_empty charCounter noNodes noChat noTicket emptyItemW cfgW rfl

/-- C9: for every source item whose `content_type` is `"text/code:" ++ lang`
(regardless of `source_kind`), the router selects the code chunker and the
returned configuration carries `language = Some lang`. -/
theorem language_tag_round_trip (dcfg : ChunkConfig) (item : SourceItem) (lang : Str)
    (h : item.content_type = str "text/code:" ++ lang) :
    getChunker item = .code ∧ (getConfig dcfg item).language = some lang := by
  have hpre : startsWithStr item.content_type (str "text/code:") = true := by
    rw [h, startsWithStr, List.isPrefixOf_iff_prefix]
    exact List.prefix_append _ _
  have hby : List.isPrefixOf (str "text/code:") (str "text/code:" ++ lang) = true := by
    rw [List.isPrefixOf_iff_prefix]
    exact List.prefix_append _ _
  have hlang : item.extract_language = some lang := by
    rw [SourceItem.extract_language, if_pos hpre, h, stripPrefixStr, if_pos hby,
      List.drop_left]
  refine ⟨?_, ?_⟩
  · simp [getChunker, matchContentType, hpre]
  · simp [getConfig, hpre, hlang]

/-- Witness for C9: `text/code:rust` routes to the code chunker with config
language `rust`. -/
theorem language_tag_round_trip_witness :
    getChunker ⟨.other, str "text/code:rust", str "fn main() {}", none, none⟩ = .code ∧
    (getConfig cfgW ⟨.other, str "text/code:rust", str "fn main() {}", none, none⟩).language =
      some (str "rust") :=
  language_tag_round_trip cfgW _ (str "rust") rfl

/-- A chunk used by the enrichment theorems. -/
def chunkW : Chunk := ⟨str "def hello(): pass", 5, 0, 17, 0, {}⟩

/-- A context whose file path makes the 500-byte prefix truncation of the
default builder cut inside the multi-byte `é` (the path is `a` followed by
250 `é`, so byte 500 of `# File: …` is not a char boundary). -/
def badCtxW : ChunkContext :=
  ⟨'a' :: List.replicate 250 'é', none, none, [], [], [], [], none⟩

set_option maxRecDepth 8000 in
/-- C10 counterexample: `ContextBuilder::enrich` with the default builder
does not return an `EnrichedChunk` at all on this chunk/context pair — the
prefix truncation `&prefix[..500]` slices mid-code-point and panics. -/
theorem enrich_truncation_panic_cex :
    enrich ContextBuilder.default chunkW badCtxW = .error .panic := by rfl

/-- C10 amended: whenever the prefix construction returns (does not panic on
a mid-code-point byte cut), `enrich` yields exactly
`prefix + separator + content` for a non-empty prefix and the bare content
for an empty one, with the original chunk embedded unchanged. -/
theorem enrich_equation_amended (b : ContextBuilder) (chunk : Chunk)
    (ctx : ChunkContext) (pfx : Str) (h : buildPrefix b ctx = .ok pfx) :
    enrich b chunk ctx = .ok
      { chunk := chunk
        context := ctx
        enriched_content :=
          if pfx = [] then chunk.content else pfx ++ b.separator ++ chunk.content } := by
  unfold enrich
  rw [h]

/-- An ASCII context on which the default prefix builder succeeds. -/
def okCtxW : ChunkContext :=
  ⟨str "test.py", none, none, str "python", [], [], [], none⟩

/-- Witness for the amended C10 at a concrete chunk and context. -/
theorem enrich_equation_amended_witness :
    enrich ContextBuilder.default chunkW okCtxW = .ok
      { chunk := chunkW
        context := okCtxW
        enriched_content :=
          if (str "# File: test.py\n# Language: python") = [] then chunkW.content
          else (str "# File: test.py\n# Language: python") ++
            ContextBuilder.default.separator ++ chunkW.content } :=
  enrich_equation_amended ContextBuilder.default chunkW okCtxW
    (str "# File: test.py\n# Language: python") (by rfl)

/-- The configuration of the C7 counterexample: overlap 5 exceeds size 2. -/
def cexCfgC7 : ChunkConfig := ⟨2, 5, 0, false, none⟩

/-- The item of the C7 counterexample. -/
def cexItemC7 : SourceItem := ⟨.other, str "text/plain", str "abcde", none, none⟩

/-- C7 counterexample: with `chunk_overlap = 5 ≥ chunk_size = 2` the window
step is `chunk_size = 2`, not the claimed smallest legal step 1, and the
emitted windows start at 0, 2, 4 (consecutive starts differ by 2). -/
theorem token_step_not_clamped_cex :
    tokenStep cexCfgC7 = 2 ∧ (2 : Nat) ≠ 1 ∧
    (tokenChunkerChunk charCounter cexItemC7 cexCfgC7).map
      (fun l => l.map (fun c => (c.content, c.start_index))) =
      .ok [(str "ab", 0), (str "cd", 2), (str "e", 4)] :=
  ⟨rfl, by decide, by rfl⟩

/-- The window the token chunker materializes at token position `startTok`
with ordinal `idx` (the loop body of `TokenChunker::chunk`). -/
def tokenWindowChunk (tc : TokenCounter) (tokens : List Nat) (size : Nat)
    (startTok idx : Nat) : Chunk :=
  let endTok := min (startTok + size) tokens.length
  let chunkTokens := (tokens.drop startTok).take (endTok - startTok)
  let chunkText := tc.decode chunkTokens
  let startChar := if idx = 0 then 0 else bytesLen (tc.decode (tokens.take startTok))
  { content := chunkText
    token_count := chunkTokens.length
    start_index := startChar
    end_index := startChar + bytesLen chunkText
    chunk_index := idx }

theorem tokenWindowsGo_get (tc : TokenCounter) (tokens : List Nat) (size step : Nat) :
    ∀ fuel s idx l, tokenWindowsGo tc tokens size step s idx fuel = .ok l →
      ∀ k, (hk : k < l.length) → l.get ⟨k, hk⟩ =
        tokenWindowChunk tc tokens size (s + k * step) (idx + k) := by
  intro fuel
  induction fuel with
  | zero => intro s i l h; simp [tokenWindowsGo] at h
  | succ f ih =>
      intro s i l h
      simp only [tokenWindowsGo] at h
      by_cases hs : s < tokens.length
      · simp only [if_pos hs] at h
        by_cases he : min (s + size) tokens.length ≥ tokens.length
        · rw [if_pos he] at h
          cases h
          intro k hk
          have hk0 : k = 0 := by
            simp only [List.length_cons, List.length_nil] at hk
            omega
          subst hk0
          simp [tokenWindowChunk]
        · rw [if_neg he] at h
          cases hrec : tokenWindowsGo tc tokens size step (s + step) (i + 1) f with
          | ok rest =>
              rw [hrec] at h
              cases h
              intro k hk
              cases k with
              | zero => simp [tokenWindowChunk]
              | succ k2 =>
                  have := ih _ _ _ hrec k2 (by simpa using hk)
                  simp only [List.get_cons_succ, this]
                  congr 1 <;> ring
          | error e => rw [hrec] at h; cases h
      · simp only [if_neg hs] at h; cases h; intro k hk; simp at hk

/-- C7 amended: the token chunker slides a window of size `chunk_size`; the
step is `chunk_size - chunk_overlap` when the overlap is smaller and
`chunk_size` itself (not a clamp to 1) when `chunk_overlap ≥ chunk_size`.
For any positive `chunk_size` the step is therefore ≥ 1, and the `k`-th
emitted chunk is exactly the window starting at token `k * step`. -/
theorem token_window_step_amended (tc : TokenCounter) (item : SourceItem)
    (cfg : ChunkConfig) (l : List Chunk) (h1 : 1 ≤ cfg.chunk_size)
    (h : tokenChunkerChunk tc item cfg = .ok l) :
    1 ≤ tokenStep cfg ∧
    (cfg.chunk_size ≤ cfg.chunk_overlap → tokenStep cfg = cfg.chunk_size) ∧
    ∀ k, (hk : k < l.length) → l.get ⟨k, hk⟩ =
      tokenWindowChunk tc (tc.encode item.content) cfg.chunk_size
        (k * tokenStep cfg) k := by
  refine ⟨?_, ?_, ?_⟩
  · unfold tokenStep
    by_cases hov : cfg.chunk_overlap ≥ cfg.chunk_size
    · rw [if_pos hov]; exact h1
    · rw [if_neg hov]; omega
  · intro hov
    unfold tokenStep
    rw [if_pos hov]
  · unfold tokenChunkerChunk at h
    by_cases hem : item.content = []
    · rw [if_pos hem] at h; cases h; intro k hk; simp at hk
    · rw [if_neg hem] at h
      dsimp only at h
      by_cases ht : tc.encode item.content = []
      · rw [if_pos ht] at h; cases h; intro k hk; simp at hk
      · rw [if_neg ht] at h
        intro k hk
        have := tokenWindowsGo_get tc (tc.encode item.content) cfg.chunk_size
          (tokenStep cfg) _ _ _ _ h k hk
        simpa using this

/-- The three windows of the C7 configuration, listed explicitly. -/
def tokenChunksC7 : List Chunk :=
  [⟨str "ab", 2, 0, 2, 0, {}⟩, ⟨str "cd", 2, 2, 4, 1, {}⟩, ⟨str "e", 1, 4, 5, 2, {}⟩]

/-- Witness for the amended C7 at the counterexample configuration. -/
theorem token_window_step_amended_witness :
    1 ≤ tokenStep cexCfgC7 ∧
    (cexCfgC7.chunk_size ≤ cexCfgC7.chunk_overlap → tokenStep cexCfgC7 = cexCfgC7.chunk_size) ∧
    ∀ k, (hk : k < tokenChunksC7.length) → tokenChunksC7.get ⟨k, hk⟩ =
      tokenWindowChunk charCounter (charCounter.encode cexItemC7.content)
        cexCfgC7.chunk_size (k * tokenStep cexCfgC7) k :=
  token_window_step_amended charCounter cexItemC7 cexCfgC7 tokenChunksC7
    (by decide) (by rfl)

/-- Standard UTF-8 encoding of one scalar value. -/
def utf8EncodeCharM (c : Char) : List Nat :=
  let n := c.toNat
  if n < 128 then [n]
  else if n < 2048 then [192 + n / 64, 128 + n % 64]
  else if n < 65536 then [224 + n / 4096, 128 + (n / 64) % 64, 128 + n % 64]
  else [240 + n / 262144, 128 + (n / 4096) % 64, 128 + (n / 64) % 64, 128 + n % 64]

/-- UTF-8 bytes of a string. -/
def utf8Bytes (s : Str) : RBytes := (s.map utf8EncodeCharM).flatten

/-- C4: the batch pre-split is not total.  On the 4-byte content `"éé"` with
`max_content_size = 3` (so the pre-split path is taken), the slice
`&content[current_start..search_end]` of `split_large_content` lands in the
middle of the second `é` and panics, instead of cutting at a char
boundary. -/
theorem split_large_content_panics_on_multibyte :
    3 < (utf8Bytes (str "éé")).length ∧
    splitLargeContent (utf8Bytes (str "éé")) 3 = .error .panic :=
  ⟨by decide, by rfl⟩

theorem tableRowsGo_prefix (tc : TokenCounter) (hp : Str) (mt : Nat) (kind : Str) :
    ∀ rows curRows curTok curIndex idx c,
      c ∈ tableRowsGo tc hp mt kind curRows curTok curIndex idx rows →
      hp <+: c.content := by
  intro rows
  induction rows with
  | nil =>
      intro curRows curTok curIndex idx c hc
      by_cases h : curRows ≠ []
      · simp only [tableRowsGo, if_pos h, List.mem_singleton] at hc
        subst hc
        exact ⟨rowsText curRows, rfl⟩
      · simp [tableRowsGo, h] at hc
  | cons r rest ih =>
      intro curRows curTok curIndex idx c hc
      by_cases hsplit : curTok + tc.count r > mt ∧ curRows ≠ []
      · simp only [tableRowsGo, if_pos hsplit, List.mem_cons] at hc
        cases hc with
        | inl h => subst h; exact ⟨rowsText curRows, rfl⟩
        | inr h => exact ih _ _ _ _ _ h
      · simp only [tableRowsGo, if_neg hsplit] at hc
        exact ih _ _ _ _ _ hc

/-- The CSV item of the C8 boundary scenario: header `name,age,city` and six
data rows, sized (with the per-char counter) so two rows plus the header fit
per chunk. -/
def csvItemW : SourceItem :=
  ⟨.document, str "text/csv",
    str "name,age,city\na,1,x\nb,2,y\nc,3,z\nd,4,w\ne,5,v\nf,6,u", none, none⟩

/-- The C8 configuration: 25 tokens admit the 14-token header plus two 5-token
rows, but not three. -/
def cfgC8 : ChunkConfig := ⟨25, 0, 0, false, none⟩

/-- C8: every chunk of a recognized CSV starts with the header line, every
chunk of a recognized markdown table starts with the header row plus the
separator row, and the concrete six-row scenario yields exactly three chunks
all beginning with `name,age,city\n`. -/
theorem table_header_repetition :
    (∀ (tc : TokenCounter) (cfg : ChunkConfig) (header : Str) (rows : List Str),
      ∀ c ∈ chunkCsv tc header rows cfg, (header ++ ['\n']) <+: c.content) ∧
    (∀ (tc : TokenCounter) (cfg : ChunkConfig) (header sep : Str) (rows : List Str),
      ∀ c ∈ chunkMarkdownTable tc header sep rows cfg,
        (header ++ ['\n'] ++ sep ++ ['\n']) <+: c.content) ∧
    (tableChunkerChunk charCounter csvItemW cfgC8).map
      (fun l => l.map (fun c => c.content.take 14)) =
      .ok [str "name,age,city\n", str "name,age,city\n", str "name,age,city\n"] := by
  refine ⟨?_, ?_, by rfl⟩
  · intro tc cfg header rows c hc
    exact tableRowsGo_prefix tc (header ++ ['\n']) _ _ _ _ _ _ _ _ hc
  · intro tc cfg header sep rows c hc
    exact tableRowsGo_prefix tc (header ++ ['\n'] ++ sep ++ ['\n']) _ _ _ _ _ _ _ _ hc

/-- Witness for C8: the header-prefix property evaluated on a one-row CSV. -/
theorem table_header_repetition_witness :
    (str "name,age,city" ++ ['\n']) <+:
      (tableMkChunk charCounter (str "name,age,city" ++ ['\n']) [str "a,1,x"] 0 0
        (str "csv")).content :=
  table_header_repetition.1 charCounter cfgW (str "name,age,city") [str "a,1,x"] _
    (by decide)

/-! ## Token-count lemmas (C1) -/

theorem docEmitGo_counts (tc : TokenCounter) (item : SourceItem) :
    ∀ texts idx curByte c, c ∈ docEmitGo tc item idx curByte texts →
      c.token_count = tc.count c.content := by
  intro texts
  induction texts with
  | nil => intro idx curByte c hc; simp [docEmitGo] at hc
  | cons t rest ih =>
      intro idx curByte c hc
      cases t with
      | mk text heading =>
          simp only [docEmitGo, List.mem_cons] at hc
          cases hc with
          | inl h => subst h; rfl
          | inr h => exact ih _ _ _ h

theorem tableRowsGo_counts (tc : TokenCounter) (hp : Str) (mt : Nat) (kind : Str) :
    ∀ rows curRows curTok curIndex idx c,
      c ∈ tableRowsGo tc hp mt kind curRows curTok curIndex idx rows →
      c.token_count = tc.count c.content := by
  intro rows
  induction rows with
  | nil =>
      intro curRows curTok curIndex idx c hc
      by_cases h : curRows ≠ []
      · simp only [tableRowsGo, if_pos h, List.mem_singleton] at hc
        subst hc; rfl
      · simp [tableRowsGo, h] at hc
  | cons r rest ih =>
      intro curRows curTok curIndex idx c hc
      by_cases hsplit : curTok + tc.count r > mt ∧ curRows ≠ []
      · simp only [tableRowsGo, if_pos hsplit, List.mem_cons] at hc
        cases hc with
        | inl h => subst h; rfl
        | inr h => exact ih _ _ _ _ _ h
      · simp only [tableRowsGo, if_neg hsplit] at hc
        exact ih _ _ _ _ _ hc

theorem recursiveEmitGo_counts (tc : TokenCounter) :
    ∀ texts idx curIndex c, c ∈ recursiveEmitGo tc idx curIndex texts →
      c.token_count = tc.count c.content := by
  intro texts
  induction texts with
  | nil => intro idx curIndex c hc; simp [recursiveEmitGo] at hc
  | cons t rest ih =>
      intro idx curIndex c hc
      simp only [recursiveEmitGo, List.mem_cons] at hc
      cases hc with
      | inl h => subst h; rfl
      | inr h => exact ih _ _ _ h

theorem emitWithIdx_mem (f : Nat → α → Chunk) :
    ∀ l idx c, c ∈ emitWithIdx f idx l → ∃ i a, c = f i a := by
  intro l
  induction l with
  | nil => intro idx c hc; simp [emitWithIdx] at hc
  | cons a rest ih =>
      intro idx c hc
      simp only [emitWithIdx, List.mem_cons] at hc
      cases hc with
      | inl h => exact ⟨idx, a, h⟩
      | inr h => exact ih _ _ h

theorem chatPackGo_counts (tc : TokenCounter) (cfg : ChunkConfig)
    (maxMsgs : Nat) (sp : Bool) :
    ∀ msgs cur curText curTok idx c,
      c ∈ chatPackGo tc cfg maxMsgs sp cur curText curTok idx msgs →
      c.token_count = tc.count c.content := by
  intro msgs
  induction msgs with
  | nil =>
      intro cur curText curTok idx c hc
      by_cases h : cur ≠ []
      · simp only [chatPackGo, if_pos h, List.mem_singleton] at hc
        subst hc; rfl
      · simp [chatPackGo, h] at hc
  | cons m rest ih =>
      intro cur curText curTok idx c hc
      by_cases hsplit :
          (curTok + tc.count (formatMessage sp m) > cfg.chunk_size ∧ cur ≠ []) ∨
          (maxMsgs > 0 ∧ cur.length ≥ maxMsgs)
      · simp only [chatPackGo, if_pos hsplit, List.mem_cons] at hc
        cases hc with
        | inl h => subst h; rfl
        | inr h => exact ih _ _ _ _ _ h
      · simp only [chatPackGo, if_neg hsplit] at hc
        exact ih _ _ _ _ _ hc

theorem splitLargeNodeGo_counts (tc : TokenCounter) (item : SourceItem) (lang : Str)
    (chunkSize startLine endLine : Nat) :
    ∀ lines curText curStart idx c,
      c ∈ (splitLargeNodeGo tc item lang chunkSize startLine endLine
        curText curStart idx lines).1 →
      c.token_count = tc.count c.content := by
  intro lines
  induction lines with
  | nil =>
      intro curText curStart idx c hc
      by_cases h : curText ≠ []
      · simp only [splitLargeNodeGo, if_pos h, List.mem_singleton] at hc
        subst hc; rfl
      · simp [splitLargeNodeGo, h] at hc
  | cons p rest ih =>
      intro curText curStart idx c hc
      cases p with
      | mk i line =>
          by_cases hsplit :
              tc.count (if curText = [] then line else curText ++ ['\n'] ++ line) >
                chunkSize ∧ curText ≠ []
          · simp only [splitLargeNodeGo, if_pos hsplit, List.mem_cons] at hc
            cases hc with
            | inl h => subst h; rfl
            | inr h => exact ih _ _ _ _ h
          · simp only [splitLargeNodeGo, if_neg hsplit] at hc
            exact ih _ _ _ _ hc

theorem groupNodesGo_counts (tc : TokenCounter) (item : SourceItem) (lang : Str)
    (chunkSize : Nat) :
    ∀ nodes curNodes curTok idx c,
      c ∈ groupNodesGo tc item lang chunkSize curNodes curTok idx nodes →
      c.token_count = tc.count c.content := by
  intro nodes
  induction nodes with
  | nil =>
      intro curNodes curTok idx c hc
      by_cases h : curNodes ≠ []
      · simp only [groupNodesGo, if_pos h, List.mem_singleton] at hc
        subst hc; rfl
      · simp [groupNodesGo, h] at hc
  | cons node rest ih =>
      intro curNodes curTok idx c hc
      by_cases hbig : tc.count node.text > chunkSize
      · simp only [groupNodesGo, if_pos hbig, splitLargeNode] at hc
        by_cases hcur : curNodes ≠ []
        · simp only [if_pos hcur, List.mem_append, List.mem_singleton] at hc
          rcases hc with (hc | hc) | hc
          · subst hc; rfl
          · exact splitLargeNodeGo_counts tc item lang chunkSize _ _ _ _ _ _ _ hc
          · exact ih _ _ _ _ hc
        · simp only [if_neg hcur, List.mem_append, List.not_mem_nil, false_or] at hc
          rcases hc with hc | hc
          · exact splitLargeNodeGo_counts tc item lang chunkSize _ _ _ _ _ _ _ hc
          · exact ih _ _ _ _ hc
      · simp only [groupNodesGo, if_neg hbig] at hc
        by_cases hfull : curTok + tc.count node.text > chunkSize
        · simp only [if_pos hfull, List.mem_cons] at hc
          cases hc with
          | inl h => subst h; rfl
          | inr h => exact ih _ _ _ _ h
        · simp only [if_neg hfull] at hc
          exact ih _ _ _ _ hc

theorem fallbackGo_counts (tc : TokenCounter) (item : SourceItem) (lang : Str)
    (chunkSize totalLines : Nat) :
    ∀ lines curLines curTok idx startLine c,
      c ∈ fallbackGo tc item lang chunkSize totalLines
        curLines curTok idx startLine lines →
      c.token_count = tc.count c.content := by
  intro lines
  induction lines with
  | nil =>
      intro curLines curTok idx startLine c hc
      by_cases h : curLines ≠ []
      · simp only [fallbackGo, if_pos h, List.mem_singleton] at hc
        subst hc; rfl
      · simp [fallbackGo, h] at hc
  | cons p rest ih =>
      intro curLines curTok idx startLine c hc
      cases p with
      | mk i line =>
          by_cases hsplit : curTok + tc.count line > chunkSize ∧ curLines ≠ []
          · simp only [fallbackGo, if_pos hsplit, List.mem_cons] at hc
            cases hc with
            | inl h => subst h; rfl
            | inr h => exact ih _ _ _ _ _ h
          · simp only [fallbackGo, if_neg hsplit] at hc
            exact ih _ _ _ _ _ hc

/-- A sentence whose recorded count is the count of its text. -/
def SentWf (tc : TokenCounter) (s : Sentence) : Prop :=
  s.token_count = tc.count s.text

theorem splitSentencesGo_wf (tc : TokenCounter) :
    ∀ n text curStart curText, List.length text ≤ n →
      ∀ s ∈ splitSentencesGo tc curStart curText text, SentWf tc s := by
  intro n
  induction n with
  | zero =>
      intro text curStart curText hlen s hs
      have htext : text = [] := List.length_eq_zero.mp (Nat.le_zero.mp hlen)
      subst htext
      by_cases h : trimStr curText ≠ [] <;> simp only [splitSentencesGo, h] at hs <;>
        simp at hs
      · obtain ⟨-, hs⟩ := hs
        subst hs; rfl
  | succ n ih =>
      intro text curStart curText hlen s hs
      cases text with
      | nil =>
          by_cases h : trimStr curText ≠ [] <;> simp only [splitSentencesGo, h] at hs <;>
            simp at hs
          · obtain ⟨-, hs⟩ := hs
            subst hs; rfl
      | cons c rest =>
          simp only [splitSentencesGo] at hs
          by_cases hcond : (sentDelims.contains c && nextIsWsOrEnd rest) = true
          · rw [if_pos hcond] at hs
            simp only [List.mem_append] at hs
            cases hs with
            | inl h =>
                by_cases htrim :
                    trimStr (curText ++ [c] ++ (takeWsNotNl rest).1) ≠ [] <;>
                  simp only [htrim, if_pos, if_neg] at h <;> simp at h
                · obtain ⟨-, h⟩ := h
                  subst h; rfl
            | inr h =>
                have hl : (takeWsNotNl rest).2.length ≤ n := by
                  have := takeWsNotNl_snd_length rest
                  simp only [List.length_cons] at hlen
                  omega
                exact ih _ _ _ hl s h
          · rw [if_neg hcond] at hs
            have hl : rest.length ≤ n := by
              simp only [List.length_cons] at hlen
              omega
            exact ih _ _ _ hl s hs

theorem mergeShortGo_wf (tc : TokenCounter) (minChars : Nat) :
    ∀ sents curr, SentWf tc curr → (∀ x ∈ sents, SentWf tc x) →
      ∀ s ∈ mergeShortGo tc minChars curr sents, SentWf tc s := by
  intro sents
  induction sents with
  | nil =>
      intro curr hcurr _ s hs
      simp only [mergeShortGo, List.mem_singleton] at hs
      subst hs; exact hcurr
  | cons x rest ih =>
      intro curr hcurr hall s hs
      simp only [mergeShortGo] at hs
      by_cases h : bytesLen curr.text < minChars
      · rw [if_pos h] at hs
        refine ih _ ?_ (fun y hy => hall y (List.mem_cons_of_mem x hy)) s hs
        rfl
      · rw [if_neg h] at hs
        simp only [List.mem_cons] at hs
        cases hs with
        | inl hh => subst hh; exact hcurr
        | inr hh =>
            exact ih _ (hall x (List.mem_cons_self x rest))
              (fun y hy => hall y (List.mem_cons_of_mem x hy)) s hh

theorem mergeShortSentences_wf (tc : TokenCounter) (minChars : Nat)
    (sents : List Sentence) (hall : ∀ x ∈ sents, SentWf tc x) :
    ∀ s ∈ mergeShortSentences tc sents minChars, SentWf tc s := by
  cases sents with
  | nil => intro s hs; simp [mergeShortSentences] at hs
  | cons x rest =>
      intro s hs
      exact mergeShortGo_wf tc minChars rest x (hall x (List.mem_cons_self x rest))
        (fun y hy => hall y (List.mem_cons_of_mem x hy)) s hs

theorem count_nil_of_additive (tc : TokenCounter) (hadd : CounterAdditive tc) :
    tc.count [] = 0 := by
  have h := hadd [] []
  simp only [List.nil_append] at h
  omega

theorem sentencesText_append (l1 l2 : List Sentence) :
    sentencesText (l1 ++ l2) = sentencesText l1 ++ sentencesText l2 := by
  simp [sentencesText]

theorem sentencePackGo_counts (tc : TokenCounter) (cfg : ChunkConfig)
    (hadd : CounterAdditive tc) :
    ∀ sents cur curTok chunkStart idx,
      (∀ s ∈ sents, SentWf tc s) →
      curTok = tc.count (sentencesText cur) →
      ∀ c ∈ sentencePackGo cfg cur curTok chunkStart idx sents,
        c.token_count = tc.count c.content := by
  intro sents
  induction sents with
  | nil =>
      intro cur curTok chunkStart idx _ htok c hc
      by_cases h : cur ≠ []
      · simp only [sentencePackGo, if_pos h, List.mem_singleton] at hc
        subst hc
        exact htok
      · simp [sentencePackGo, h] at hc
  | cons s rest ih =>
      intro cur curTok chunkStart idx hall htok c hc
      have hswf : SentWf tc s := hall s (List.mem_cons_self s rest)
      have hrest : ∀ x ∈ rest, SentWf tc x :=
        fun y hy => hall y (List.mem_cons_of_mem s hy)
      by_cases hsplit : curTok + s.token_count > cfg.chunk_size ∧ cur ≠ []
      · simp only [sentencePackGo, if_pos hsplit, List.mem_cons] at hc
        cases hc with
        | inl h => subst h; exact htok
        | inr h =>
            refine ih [s] s.token_count s.start_index (idx + 1) hrest ?_ c h
            rw [hswf]
            simp [sentencesText]
      · simp only [sentencePackGo, if_neg hsplit] at hc
        refine ih (cur ++ [s]) (curTok + s.token_count) chunkStart idx hrest ?_ c hc
        rw [htok, hswf, sentencesText_append]
        have : sentencesText [s] = s.text := by simp [sentencesText]
        rw [this, hadd]

theorem sentence_okCounts (tc : TokenCounter) (item : SourceItem) (cfg : ChunkConfig)
    (hadd : CounterAdditive tc) : OkCounts tc (sentenceChunkerChunk tc item cfg) := by
  intro l h
  unfold sentenceChunkerChunk at h
  by_cases hem : item.content = []
  · rw [if_pos hem] at h; cases h; intro c hc; simp at hc
  · rw [if_neg hem] at h
    dsimp only at h
    by_cases hs : mergeShortSentences tc (splitSentencesGo tc 0 [] item.content)
        cfg.min_chars_per_sentence = []
    · rw [if_pos hs] at h; cases h; intro c hc; simp at hc
    · rw [if_neg hs] at h; cases h
      intro c hc
      refine sentencePackGo_counts tc cfg hadd _ [] 0 0 0 ?_ ?_ c hc
      · exact mergeShortSentences_wf tc _ _
          (fun x hx => splitSentencesGo_wf tc item.content.length item.content 0 []
            (Nat.le_refl _) x hx)
      · rw [show sentencesText [] = [] from rfl, count_nil_of_additive tc hadd]

theorem tokenWindowsGo_counts (tc : TokenCounter) (tokens : List Nat) (size step : Nat)
    (hdec : CounterDecodeStable tc) :
    ∀ fuel s idx l, tokenWindowsGo tc tokens size step s idx fuel = .ok l →
      ∀ c ∈ l, c.token_count = tc.count c.content := by
  intro fuel
  induction fuel with
  | zero => intro s i l h; simp [tokenWindowsGo] at h
  | succ f ih =>
      intro s i l h
      simp only [tokenWindowsGo] at h
      by_cases hs : s < tokens.length
      · simp only [if_pos hs] at h
        by_cases he : min (s + size) tokens.length ≥ tokens.length
        · rw [if_pos he] at h
          cases h
          intro c hc
          simp only [List.mem_singleton] at hc
          subst hc
          exact (hdec _).symm
        · rw [if_neg he] at h
          cases hrec : tokenWindowsGo tc tokens size step (s + step) (i + 1) f with
          | ok rest =>
              rw [hrec] at h
              cases h
              intro c hc
              simp only [List.mem_cons] at hc
              cases hc with
              | inl hh => subst hh; exact (hdec _).symm
              | inr hh => exact ih _ _ _ hrec c hh
          | error e => rw [hrec] at h; cases h
      · simp only [if_neg hs] at h; cases h; intro c hc; simp at hc

theorem token_okCounts (tc : TokenCounter) (item : SourceItem) (cfg : ChunkConfig)
    (hdec : CounterDecodeStable tc) : OkCounts tc (tokenChunkerChunk tc item cfg) := by
  intro l h
  unfold tokenChunkerChunk at h
  by_cases hem : item.content = []
  · rw [if_pos hem] at h; cases h; intro c hc; simp at hc
  · rw [if_neg hem] at h
    dsimp only at h
    by_cases ht : tc.encode item.content = []
    · rw [if_pos ht] at h; cases h; intro c hc; simp at hc
    · rw [if_neg ht] at h
      exact tokenWindowsGo_counts tc _ _ _ hdec _ _ _ _ h

theorem document_okCounts (tc : TokenCounter) (item : SourceItem) (cfg : ChunkConfig) :
    OkCounts tc (documentChunkerChunk tc item cfg) := by
  intro l h
  unfold documentChunkerChunk at h
  by_cases hem : item.content = []
  · rw [if_pos hem] at h; cases h; intro c hc; simp at hc
  · rw [if_neg hem] at h; cases h
    intro c hc
    exact docEmitGo_counts tc item _ _ _ c hc

theorem table_okCounts (tc : TokenCounter) (item : SourceItem) (cfg : ChunkConfig) :
    OkCounts tc (tableChunkerChunk tc item cfg) := by
  intro l h
  unfold tableChunkerChunk at h
  by_cases hem : item.content = []
  · rw [if_pos hem] at h; cases h; intro c hc; simp at hc
  · rw [if_neg hem] at h
    dsimp only at h
    by_cases hmd : isMarkdownTable item.content = true
    · rw [if_pos hmd] at h
      cases hp : parseMarkdownTable item.content with
      | none =>
          rw [hp] at h; cases h
          intro c hc
          simp only [List.mem_singleton] at hc
          subst hc; rfl
      | some t =>
          obtain ⟨hh, hsep, hrows⟩ := t
          rw [hp] at h; cases h
          intro c hc
          exact tableRowsGo_counts tc _ _ _ _ _ _ _ _ c hc
    · rw [if_neg hmd] at h
      cases hp : parseCsv item.content with
      | none =>
          rw [hp] at h; cases h
          intro c hc
          simp only [List.mem_singleton] at hc
          subst hc; rfl
      | some t =>
          obtain ⟨hh, hrows⟩ := t
          rw [hp] at h; cases h
          intro c hc
          exact tableRowsGo_counts tc _ _ _ _ _ _ _ _ c hc

theorem recursive_okCounts (tc : TokenCounter) (item : SourceItem) (cfg : ChunkConfig) :
    OkCounts tc (recursiveChunkerChunk tc item cfg) := by
  intro l h
  unfold recursiveChunkerChunk at h
  by_cases hem : item.content = []
  · rw [if_pos hem] at h; cases h; intro c hc; simp at hc
  · rw [if_neg hem] at h
    cases hrec : recursiveChunkGo tc recursiveSeparators cfg.chunk_size
        ((item.content.length + 2) * (recursiveSeparators.length + 2) + 16)
        item.content 0 with
    | error e => rw [hrec] at h; cases h
    | ok texts =>
        rw [hrec] at h; cases h
        intro c hc
        exact recursiveEmitGo_counts tc _ _ _ c hc

theorem agentic_okCounts (tc : TokenCounter) (item : SourceItem) (cfg : ChunkConfig) :
    OkCounts tc (agenticChunkerChunk tc item cfg) := by
  intro l h
  unfold agenticChunkerChunk at h
  by_cases hem : item.content = []
  · rw [if_pos hem] at h; cases h; intro c hc; simp at hc
  · rw [if_neg hem] at h
    cases hs : splitAtBoundaries tc item.content cfg with
    | error e => rw [hs] at h; cases h
    | ok cands =>
        rw [hs] at h; cases h
        intro c hc
        obtain ⟨i, a, hca⟩ := emitWithIdx_mem _ _ _ _ hc
        subst hca
        rfl

theorem chat_okCounts (tc : TokenCounter) (pj : Str → Option ChatThread)
    (item : SourceItem) (cfg : ChunkConfig) :
    OkCounts tc (chatChunkerChunk tc pj item cfg) := by
  intro l h
  unfold chatChunkerChunk at h
  by_cases hem : item.content = []
  · rw [if_pos hem] at h; cases h; intro c hc; simp at hc
  · rw [if_neg hem] at h
    dsimp only at h
    set thread := if containsSub item.content_type (str "json") then
        (pj item.content).getD (parseChatText item.content)
      else parseChatText item.content with hthread
    by_cases hmsgs : thread.messages = []
    · rw [if_pos hmsgs] at h; cases h; intro c hc; simp at hc
    · rw [if_neg hmsgs] at h; cases h
      intro c hc
      exact chatPackGo_counts tc cfg 0 true _ _ _ _ _ c hc

theorem code_okCounts (tc : TokenCounter) (oracle : Str → Str → Option (List NodeText))
    (item : SourceItem) (cfg : ChunkConfig) :
    OkCounts tc (codeChunkerChunk tc oracle item cfg) := by
  intro l h
  unfold codeChunkerChunk at h
  by_cases hem : item.content = []
  · rw [if_pos hem] at h; cases h; intro c hc; simp at hc
  · rw [if_neg hem] at h
    dsimp only at h
    set language := (cfg.language.orElse fun _ => item.extract_language).getD (str "text")
      with hlang
    by_cases hsup : ¬ codeLangSupported language = true
    · rw [if_pos hsup] at h; cases h
      intro c hc
      exact fallbackGo_counts tc item _ _ _ _ _ _ _ _ c hc
    · rw [if_neg hsup] at h
      cases horacle : oracle language item.content with
      | none =>
          rw [horacle] at h; cases h
          intro c hc
          exact fallbackGo_counts tc item _ _ _ _ _ _ _ _ c hc
      | some nodes =>
          rw [horacle] at h
          cases nodes with
          | nil =>
              cases h
              intro c hc
              exact fallbackGo_counts tc item _ _ _ _ _ _ _ _ c hc
          | cons n ns =>
              cases h
              intro c hc
              exact groupNodesGo_counts tc item _ _ _ _ _ _ c hc

/-- The item of the C1 counterexample: an unstructured ticket whose
description exceeds the budget, forcing the `". "`-split path that stores a
running fragment-count sum instead of a recount. -/
def cexItemC1 : SourceItem :=
  ⟨.ticketing, str "text/plain", str "aaaa. bbbb. cccc", none, none⟩

/-- The C1 counterexample configuration. -/
def cexCfgC1 : ChunkConfig := ⟨10, 0, 0, false, none⟩

/-- C1 counterexample: the ticketing chunker emits a second chunk whose
stored `token_count` is 8 — the sum of the counts of its `". "`-separated
fragments, which omits the re-inserted separators — while the token count of
its content `"bbbb. cccc"` is 10 (per-char counter).  The claimed invariant
fails even for a perfectly additive counter. -/
theorem ticketing_token_count_cex :
    (ticketingChunkerChunk charCounter noTicket cexItemC1 cexCfgC1).map
      (fun l => l.map (fun c => (c.token_count, charCounter.count c.content))) =
      .ok [(22, 22), (8, 10)] ∧ (8 : Nat) ≠ 10 :=
  ⟨by rfl, by decide⟩

/-- C1 amended: every chunker that recounts its emitted content stores
`token_count = count(content)` unconditionally (document, table, recursive,
agentic, chat, code); the sentence chunker stores the sum of its sentences'
counts, which equals the count of the content whenever the counter is
additive over concatenation; the token chunker stores the window length,
which equals the count of the content whenever the counter is decode-stable.
(The ticketing chunker's oversized-description chunks store a fragment-count
sum that drops the `". "` separators and satisfy no such equation —
see the counterexample.) -/
theorem token_count_amended (tc : TokenCounter)
    (oracle : Str → Str → Option (List NodeText))
    (pjChat : Str → Option ChatThread)
    (item : SourceItem) (cfg : ChunkConfig) :
    OkCounts tc (documentChunkerChunk tc item cfg) ∧
    OkCounts tc (tableChunkerChunk tc item cfg) ∧
    OkCounts tc (recursiveChunkerChunk tc item cfg) ∧
    OkCounts tc (agenticChunkerChunk tc item cfg) ∧
    OkCounts tc (chatChunkerChunk tc pjChat item cfg) ∧
    OkCounts tc (codeChunkerChunk tc oracle item cfg) ∧
    (CounterAdditive tc → OkCounts tc (sentenceChunkerChunk tc item cfg)) ∧
    (CounterDecodeStable tc → OkCounts tc (tokenChunkerChunk tc item cfg)) :=
  ⟨document_okCounts tc item cfg, table_okCounts tc item cfg,
   recursive_okCounts tc item cfg, agentic_okCounts tc item cfg,
   chat_okCounts tc pjChat item cfg, code_okCounts tc oracle item cfg,
   fun hadd => sentence_okCounts tc item cfg hadd,
   fun hdec => token_okCounts tc item cfg hdec⟩

/-- Witness for the amended C1 with the additive, decode-stable per-char
counter on a concrete item. -/
theorem token_count_amended_witness :
    OkCounts charCounter (documentChunkerChunk charCounter itemW cfgW) ∧
    OkCounts charCounter (tableChunkerChunk charCounter itemW cfgW) ∧
    OkCounts charCounter (recursiveChunkerChunk charCounter itemW cfgW) ∧
    OkCounts charCounter (agenticChunkerChunk charCounter itemW cfgW) ∧
    OkCounts charCounter (chatChunkerChunk charCounter noChat itemW cfgW) ∧
    OkCounts charCounter (codeChunkerChunk charCounter noNodes itemW cfgW) ∧
    OkCounts charCounter (sentenceChunkerChunk charCounter itemW cfgW) ∧
    OkCounts charCounter (tokenChunkerChunk charCounter itemW cfgW) := by
  have h := token_count_amended charCounter noNodes noChat itemW cfgW
  exact ⟨h.1, h.2.1, h.2.2.1, h.2.2.2.1, h.2.2.2.2.1, h.2.2.2.2.2.1,
    h.2.2.2.2.2.2.1 charCounter_additive,
    h.2.2.2.2.2.2.2 charCounter_decodeStable⟩

/-! ## Job processor lemmas (C5, C6) -/

theorem storeGetJob_storeUpdate (s : JobStore) (id : Nat) (f : JobRecord → JobRecord) :
    storeGetJob (storeUpdate s id f) id = (storeGetJob s id).map f := by
  induction s with
  | nil => rfl
  | cons e rest ih =>
      cases e with
      | mk k r =>
          by_cases hk : k = id
          · subst hk
            unfold storeUpdate storeGetJob
            rw [if_pos rfl]
            rw [List.find?_cons_of_pos _ (by simp), List.find?_cons_of_pos _ (by simp)]
            rfl
          · unfold storeUpdate storeGetJob
            rw [if_neg hk]
            rw [List.find?_cons_of_neg _ (by simp [hk]),
              List.find?_cons_of_neg _ (by simp [hk])]
            exact ih

theorem processJobLoop_final_get (jobId : Nat) :
    ∀ (rs : List (Option (List Chunk))) (store : JobStore) (p t : Nat) (r0 : JobRecord),
      storeGetJob store jobId = some r0 →
      ∃ r2, storeGetJob (processJobLoop jobId store p t rs).1 jobId = some r2 ∧
        r2.status = r0.status ∧ r2.error = r0.error ∧ r2.total_items = r0.total_items := by
  intro rs
  induction rs with
  | nil =>
      intro store p t r0 hget
      exact ⟨r0, hget, rfl, rfl, rfl⟩
  | cons res rest ih =>
      intro store p t r0 hget
      have hget2 : storeGetJob (storeUpdateProgress store jobId (p + 1)
          (match res with | some cs => t + cs.length | none => t)) jobId =
          some (r0.update_progress (p + 1)
            (match res with | some cs => t + cs.length | none => t)) := by
        rw [storeUpdateProgress, storeGetJob_storeUpdate, hget]
        rfl
      obtain ⟨r2, hr2, h1, h2, h3⟩ := ih _ (p + 1) _ _ hget2
      exact ⟨r2, hr2, h1, h2, h3⟩

/-- C5: if one of the two sink calls settles with an error (the other may
succeed), `process_job` still transitions the job to `completed`, never to
`failed`, and the record's error field is untouched: sink outcomes never
reach the job state. -/
theorem sink_errors_never_fail_job (store0 : JobStore) (jobId : Nat)
    (itemResults : List (Option (List Chunk)))
    (embRes graphRes : Except Unit Nat) (r0 : JobRecord)
    (hget : storeGetJob store0 jobId = some r0)
    (hfail : embRes = .error () ∨ graphRes = .error ()) :
    (storeGetJob (processJob store0 jobId itemResults embRes graphRes).1 jobId).map
      (fun r => r.status) = some .completed ∧
    (storeGetJob (processJob store0 jobId itemResults embRes graphRes).1 jobId).map
      (fun r => r.error) = some r0.error := by
  have h1 : storeGetJob (storeStartJob store0 jobId) jobId = some r0.start := by
    rw [storeStartJob, storeGetJob_storeUpdate, hget]
    rfl
  obtain ⟨r2, hr2, hst, herr, -⟩ :=
    processJobLoop_final_get jobId itemResults _ 0 0 _ h1
  have hfin : storeGetJob (processJob store0 jobId itemResults embRes graphRes).1
      jobId = some r2.complete := by
    unfold processJob
    dsimp only
    rw [storeCompleteJob, storeGetJob_storeUpdate, hr2]
    rfl
  rw [hfin]
  refine ⟨rfl, ?_⟩
  have : r2.complete.error = r0.error := by
    rw [show r2.complete.error = r2.error from rfl, herr]
    rfl
  simpa using this

/-- A two-item store for the job witnesses. -/
def storeW : JobStore := [(7, JobRecord.new 2)]

/-- Witness for C5: a concrete run with a failing embedding sink still ends
completed with an untouched error field. -/
theorem sink_errors_never_fail_job_witness :
    (storeGetJob (processJob storeW 7 [some [], none] (.error ()) (.ok 0)).1 7).map
      (fun r => r.status) = some .completed ∧
    (storeGetJob (processJob storeW 7 [some [], none] (.error ()) (.ok 0)).1 7).map
      (fun r => r.error) = some (JobRecord.new 2).error :=
  sink_errors_never_fail_job storeW 7 [some [], none] (.error ()) (.ok 0)
    (JobRecord.new 2) rfl (Or.inl rfl)

/-- The job records visible after each progress write of the item loop. -/
def loopSnapshotRecs (r : JobRecord) :
    Nat → Nat → List (Option (List Chunk)) → List JobRecord
  | _, _, [] => []
  | p, t, res :: rest =>
      let t2 := match res with | some cs => t + cs.length | none => t
      r.update_progress (p + 1) t2 ::
        loopSnapshotRecs (r.update_progress (p + 1) t2) (p + 1) t2 rest

theorem processJobLoop_spec (jobId : Nat) :
    ∀ (rs : List (Option (List Chunk))) (store : JobStore) (p t : Nat) (r : JobRecord),
      storeGetJob store jobId = some r →
      ((processJobLoop jobId store p t rs).2.1.map (fun st => storeGetJob st jobId) =
        (loopSnapshotRecs r p t rs).map some) ∧
      storeGetJob (processJobLoop jobId store p t rs).1 jobId =
        some ((loopSnapshotRecs r p t rs).getLastD r) := by
  intro rs
  induction rs with
  | nil =>
      intro store p t r hget
      exact ⟨rfl, hget⟩
  | cons res rest ih =>
      intro store p t r hget
      have hget2 : storeGetJob (storeUpdateProgress store jobId (p + 1)
          (match res with | some cs => t + cs.length | none => t)) jobId =
          some (r.update_progress (p + 1)
            (match res with | some cs => t + cs.length | none => t)) := by
        rw [storeUpdateProgress, storeGetJob_storeUpdate, hget]
        rfl
      obtain ⟨ihm, ihf⟩ := ih _ (p + 1) _ _ hget2
      constructor
      · simp only [processJobLoop, loopSnapshotRecs, List.map_cons]
        rw [hget2, ihm]
      · simp only [processJobLoop, loopSnapshotRecs]
        rw [ihf, List.getLastD_cons]

theorem loopSnapshotRecs_status (r : JobRecord) :
    ∀ rs p t, (loopSnapshotRecs r p t rs).map (fun x => x.status) =
      List.replicate rs.length r.status := by
  intro rs
  induction rs generalizing r with
  | nil => intro p t; rfl
  | cons res rest ih =>
      intro p t
      simp only [loopSnapshotRecs, List.map_cons, List.length_cons,
        List.replicate_succ]
      rw [ih]
      rfl

theorem loopSnapshotRecs_processed (r : JobRecord) :
    ∀ rs p t, (loopSnapshotRecs r p t rs).map (fun x => x.processed_items) =
      List.range' (p + 1) rs.length := by
  intro rs
  induction rs generalizing r with
  | nil => intro p t; rfl
  | cons res rest ih =>
      intro p t
      simp only [loopSnapshotRecs, List.map_cons, List.length_cons, List.range'_succ]
      rw [ih]
      rfl

theorem loopSnapshotRecs_total (r : JobRecord) :
    ∀ rs p t x, x ∈ loopSnapshotRecs r p t rs → x.total_items = r.total_items := by
  intro rs
  induction rs generalizing r with
  | nil => intro p t x hx; simp [loopSnapshotRecs] at hx
  | cons res rest ih =>
      intro p t x hx
      cases res with
      | some cs =>
          simp only [loopSnapshotRecs, List.mem_cons] at hx
          cases hx with
          | inl h => subst h; rfl
          | inr h =>
              have h2 := ih (r.update_progress (p + 1) (t + cs.length)) (p + 1)
                (t + cs.length) x h
              exact h2
      | none =>
          simp only [loopSnapshotRecs, List.mem_cons] at hx
          cases hx with
          | inl h => subst h; rfl
          | inr h =>
              have h2 := ih (r.update_progress (p + 1) t) (p + 1) t x h
              exact h2

theorem loopSnapshotRecs_last_status (r : JobRecord) :
    ∀ rs p t, ((loopSnapshotRecs r p t rs).getLastD r).status = r.status := by
  intro rs
  induction rs generalizing r with
  | nil => intro p t; rfl
  | cons res rest ih =>
      intro p t
      simp only [loopSnapshotRecs, List.getLastD_cons]
      exact ih _ _ _

theorem loopSnapshotRecs_last_total (r : JobRecord) :
    ∀ rs p t, ((loopSnapshotRecs r p t rs).getLastD r).total_items = r.total_items := by
  intro rs
  induction rs generalizing r with
  | nil => intro p t; rfl
  | cons res rest ih =>
      intro p t
      simp only [loopSnapshotRecs, List.getLastD_cons]
      exact ih _ _ _

theorem loopSnapshotRecs_last_processed (r : JobRecord) :
    ∀ rs p t, r.processed_items = p →
      ((loopSnapshotRecs r p t rs).getLastD r).processed_items = p + rs.length := by
  intro rs
  induction rs generalizing r with
  | nil => intro p t hp; simpa [loopSnapshotRecs] using hp
  | cons res rest ih =>
      intro p t hp
      simp only [loopSnapshotRecs, List.getLastD_cons, List.length_cons]
      rw [ih _ (p + 1) _ rfl]
      omega

theorem loopSnapshotRecs_bound (n : Nat) :
    ∀ rs (r : JobRecord) p t, r.total_items = n → p + rs.length ≤ n →
      ∀ x ∈ loopSnapshotRecs r p t rs, x.processed_items ≤ x.total_items := by
  intro rs
  induction rs with
  | nil => intro r p t _ _ x hx; simp [loopSnapshotRecs] at hx
  | cons res rest ih =>
      intro r p t htot hle x hx
      simp only [List.length_cons] at hle
      cases res with
      | some cs =>
          simp only [loopSnapshotRecs, List.mem_cons] at hx
          cases hx with
          | inl h =>
              subst h
              show p + 1 ≤ r.total_items
              omega
          | inr h =>
              exact ih (r.update_progress (p + 1) (t + cs.length)) (p + 1)
                (t + cs.length) htot (by omega) x h
      | none =>
          simp only [loopSnapshotRecs, List.mem_cons] at hx
          cases hx with
          | inl h =>
              subst h
              show p + 1 ≤ r.total_items
              omega
          | inr h =>
              exact ih (r.update_progress (p + 1) t) (p + 1) t htot (by omega) x h

theorem filterMap_eq_of_map_some (g : α → Option β) :
    ∀ (l : List α) (l2 : List β), l.map g = l2.map some → l.filterMap g = l2 := by
  intro l
  induction l with
  | nil =>
      intro l2 h
      cases l2 with
      | nil => rfl
      | cons b bs => simp at h
  | cons a rest ih =>
      intro l2 h
      cases l2 with
      | nil => simp at h
      | cons b bs =>
          simp only [List.map_cons, List.cons.injEq] at h
          simp only [List.filterMap_cons, h.1]
          rw [ih bs h.2]

/-- C6: a `process_job` run against a store holding the freshly created job
record (as the HTTP handler creates it: pending, `processed_items = 0`,
`total_items` = number of items) observes exactly the state sequence
`pending, running, …, running, completed`; the processed counts are
`0, 0, 1, …, n, n` (non-decreasing); every observed record satisfies
`processed_items ≤ total_items`; and the final completed record has
`processed_items = total_items`. -/
theorem job_state_monotone (store0 : JobStore) (jobId : Nat)
    (itemResults : List (Option (List Chunk))) (embRes graphRes : Except Unit Nat)
    (n : Nat) (hn : n = itemResults.length)
    (hget : storeGetJob store0 jobId = some (JobRecord.new n)) :
    ((processJobObserved store0 jobId itemResults embRes graphRes).map
        (fun r => r.status) =
      [ChunkJobStatus.pending, ChunkJobStatus.running] ++
        List.replicate n ChunkJobStatus.running ++ [ChunkJobStatus.completed]) ∧
    ((processJobObserved store0 jobId itemResults embRes graphRes).map
        (fun r => r.processed_items) = [0, 0] ++ List.range' 1 n ++ [n]) ∧
    (∀ r ∈ processJobObserved store0 jobId itemResults embRes graphRes,
      r.total_items = n) ∧
    (∀ r ∈ processJobObserved store0 jobId itemResults embRes graphRes,
      r.processed_items ≤ r.total_items) := by
  subst hn
  have h1 : storeGetJob (storeStartJob store0 jobId) jobId =
      some (JobRecord.new itemResults.length).start := by
    rw [storeStartJob, storeGetJob_storeUpdate, hget]
    rfl
  obtain ⟨hm, hf⟩ := processJobLoop_spec jobId itemResults
    (storeStartJob store0 jobId) 0 0 _ h1
  have hA : (processJobLoop jobId (storeStartJob store0 jobId) 0 0
      itemResults).2.1.filterMap (fun st => storeGetJob st jobId) =
      loopSnapshotRecs (JobRecord.new itemResults.length).start 0 0 itemResults :=
    filterMap_eq_of_map_some _ _ _ hm
  have hc : storeGetJob (storeCompleteJob
      (processJobLoop jobId (storeStartJob store0 jobId) 0 0 itemResults).1 jobId)
      jobId = some (((loopSnapshotRecs (JobRecord.new itemResults.length).start
        0 0 itemResults).getLastD
          (JobRecord.new itemResults.length).start).complete) := by
    rw [storeCompleteJob, storeGetJob_storeUpdate, hf]
    rfl
  have hL : processJobObserved store0 jobId itemResults embRes graphRes =
      JobRecord.new itemResults.length ::
        (JobRecord.new itemResults.length).start ::
        (loopSnapshotRecs (JobRecord.new itemResults.length).start 0 0 itemResults ++
          [((loopSnapshotRecs (JobRecord.new itemResults.length).start 0 0
              itemResults).getLastD
            (JobRecord.new itemResults.length).start).complete]) := by
    unfold processJobObserved processJob
    dsimp only
    simp only [List.filterMap_cons, List.filterMap_append, List.filterMap_nil,
      hget, h1, hc, hA]
  refine ⟨?_, ?_, ?_, ?_⟩
  · rw [hL]
    simp only [List.map_cons, List.map_append]
    rw [loopSnapshotRecs_status]
    rfl
  · rw [hL]
    simp only [List.map_cons, List.map_append]
    rw [loopSnapshotRecs_processed]
    have hlast := loopSnapshotRecs_last_processed
      (JobRecord.new itemResults.length).start itemResults 0 0 rfl
    simp only [List.map_cons, List.map_nil]
    rw [show (((loopSnapshotRecs (JobRecord.new itemResults.length).start 0 0
        itemResults).getLastD
          (JobRecord.new itemResults.length).start).complete).processed_items =
        (((loopSnapshotRecs (JobRecord.new itemResults.length).start 0 0
          itemResults).getLastD
            (JobRecord.new itemResults.length).start)).processed_items from rfl]
    rw [hlast]
    simp only [Nat.zero_add]
    rfl
  · intro r hr
    rw [hL] at hr
    simp only [List.mem_cons, List.mem_append, List.not_mem_nil, or_false] at hr
    rcases hr with hr | hr | hr | hr
    · subst hr; rfl
    · subst hr; rfl
    · exact loopSnapshotRecs_total _ _ _ _ _ hr
    · subst hr
      have := loopSnapshotRecs_last_total
        (JobRecord.new itemResults.length).start itemResults 0 0
      exact this
  · intro r hr
    rw [hL] at hr
    simp only [List.mem_cons, List.mem_append, List.not_mem_nil, or_false] at hr
    rcases hr with hr | hr | hr | hr
    · subst hr; exact Nat.zero_le _
    · subst hr; exact Nat.zero_le _
    · exact loopSnapshotRecs_bound itemResults.length itemResults _ 0 0 rfl
        (by omega) r hr
    · subst hr
      have hp := loopSnapshotRecs_last_processed
        (JobRecord.new itemResults.length).start itemResults 0 0 rfl
      have ht := loopSnapshotRecs_last_total
        (JobRecord.new itemResults.length).start itemResults 0 0
      show (((loopSnapshotRecs (JobRecord.new itemResults.length).start 0 0
          itemResults).getLastD
            (JobRecord.new itemResults.length).start)).processed_items ≤
        (((loopSnapshotRecs (JobRecord.new itemResults.length).start 0 0
          itemResults).getLastD
            (JobRecord.new itemResults.length).start)).total_items
      rw [hp, ht, Nat.zero_add]
      exact Nat.le_refl _

/-- Witness for C6 on a concrete two-item run. -/
theorem job_state_monotone_witness :
    ((processJobObserved storeW 7 [some [], none] (.error ()) (.ok 0)).map
        (fun r => r.status) =
      [ChunkJobStatus.pending, ChunkJobStatus.running] ++
        List.replicate 2 ChunkJobStatus.running ++ [ChunkJobStatus.completed]) ∧
    ((processJobObserved storeW 7 [some [], none] (.error ()) (.ok 0)).map
        (fun r => r.processed_items) = [0, 0] ++ List.range' 1 2 ++ [2]) ∧
    (∀ r ∈ processJobObserved storeW 7 [some [], none] (.error ()) (.ok 0),
      r.total_items = 2) ∧
    (∀ r ∈ processJobObserved storeW 7 [some [], none] (.error ()) (.ok 0),
      r.processed_items ≤ r.total_items) :=
  job_state_monotone storeW 7 [some [], none] (.error ()) (.ok 0) 2 rfl rfl
